import Mathlib

/-!
Verification of the graph-layout engine (`graphgen.py`).

The development shallowly embeds the source program:

* `Node`, `extract_connections` — graph model and edge/dependency
  extraction with validation (`ValueError` becomes `Except.error`).
* `build_child_map`, `assign_level_to_nodes_inplace` — the wave-propagation
  level assignment with cycle detection.  The in-place mutation of
  `node.level` is modelled by explicit state passing on the node list.
* `Vec2D`, `RectBox`, the four force computations, the integrator and
  `run_simulation` — the physics engine, with Python floats modelled as
  real numbers and `np.random` draws passed in as explicit oracle
  arguments.

Python's `list(set(xs))` materialises a set in an interpreter-defined
iteration order; it is modelled by `List.dedup`, and no theorem below
depends on the chosen order.  Python integers are unbounded, so `Int`
is used for all ids stored in nodes.
-/

namespace Graphgen

/-- Represents the node of a graph (`Node` dataclass).  Declared ids are
Python ints, hence `Int`. -/
structure Node where
  node_id : Int
  related_to : List Int := []
  depends_on : List Int := []
  level : Int := 0
deriving DecidableEq, Repr

instance : Inhabited Node := ⟨⟨0, [], [], 0⟩⟩

/-- Adding an element to a Python `set`, modelled as an order-preserving
duplicate-free list. -/
def setAdd {α : Type} [DecidableEq α] (l : List α) (a : α) : List α :=
  if a ∈ l then l else l ++ [a]

/-- Lexicographic order used by Python's `sorted` on pairs of ints. -/
def pairLE (a b : Int × Int) : Prop :=
  a.1 < b.1 ∨ (a.1 = b.1 ∧ a.2 ≤ b.2)

instance : DecidableRel pairLE := fun a b => by
  unfold pairLE; infer_instance

/-- `sorted(list(s))` on a duplicate-free list of int pairs. -/
def sortPairs (l : List (Int × Int)) : List (Int × Int) :=
  l.insertionSort pairLE

/-- Inner loop of `extract_connections` over `node.related_to`: adds the
normalized pair, then raises when the larger id has no node. -/
def relLoop (n : Int) (node_id : Int) :
    List Int → List (Int × Int) → Except String (List (Int × Int))
  | [], uc => .ok uc
  | relative :: rest, uc =>
    let smaller := min node_id relative
    let bigger := max node_id relative
    let uc' := setAdd uc (smaller, bigger)
    if n ≤ bigger then .error "node_id has no Node defined"
    else relLoop n node_id rest uc'

/-- Inner loop of `extract_connections` over `node.depends_on`: raises when
the dependency id has no node, otherwise records the (child, parent) pair. -/
def depLoop (n : Int) (node_id : Int) :
    List Int → List (Int × Int) → Except String (List (Int × Int))
  | [], deps => .ok deps
  | dependency :: rest, deps =>
    if n ≤ dependency then .error "dependency does not exist"
    else depLoop n node_id rest (setAdd deps (node_id, dependency))

/-- Outer loop of `extract_connections` over `enumerate(graph)`. -/
def nodeLoop (n : Int) :
    Nat → List Node → List (Int × Int) → List (Int × Int) →
    Except String (List (Int × Int) × List (Int × Int))
  | _, [], uc, deps => .ok (uc, deps)
  | idx, node :: rest, uc, deps =>
    if node.node_id ≠ (idx : Int) then
      .error "Node idx is not matching with node id"
    else do
      let uc' ← relLoop n node.node_id node.related_to uc
      let deps' ← depLoop n node.node_id node.depends_on deps
      nodeLoop n (idx + 1) rest uc' deps'

/-- `extract_connections(graph)`: returns the sorted deduplicated undirected
connections and the (child, parent) dependency pairs, or the first
validation error. -/
def extract_connections (graph : List Node) :
    Except String (List (Int × Int) × List (Int × Int)) := do
  let (uc, deps) ← nodeLoop (graph.length : Int) 0 graph [] []
  return (sortPairs uc, deps)

/-! ### Level assignment (`assign_level_to_nodes_inplace`) -/

/-- One `child_map[parent].append(node.node_id)` step.  Out-of-range
parents never occur for validated graphs (the theorems below assume the
spec's id-range invariant); `List.set` is then exact. -/
def build_child_map_step (cm : List (List Int)) (parent : Int)
    (child : Int) : List (List Int) :=
  cm.set parent.toNat (cm.getD parent.toNat [] ++ [child])

/-- Step 1 of `assign_level_to_nodes_inplace`: if `a` depends on `b` then
`a` is a child of `b`. -/
def build_child_map (graph : List Node) : List (List Int) :=
  graph.foldl
    (fun cm node =>
      node.depends_on.foldl
        (fun cm' parent => build_child_map_step cm' parent node.node_id) cm)
    (graph.map fun _ => [])

/-- `graph[child_id].level = lvl` on the node-list state. -/
def set_level (g : List Node) (child_id : Int) (lvl : Int) : List Node :=
  g.set child_id.toNat { g.getD child_id.toNat default with level := lvl }

/-- The inner `for child_id in child_map[node_id]` loop: overwrite each
child's level with `lvl + 1` (the parent's level read before the loop). -/
def write_children (lvl : Int) : List Int → List Node → List Node
  | [], g => g
  | c :: rest, g => write_children lvl rest (set_level g c (lvl + 1))

/-- The `for node_id in unassigned` loop of one wave: each node's current
level is read, its children are overwritten to that level plus one, and
the touched children are appended to `tainted`. -/
def process_wave (cm : List (List Int)) :
    List Int → List Node → List Int → List Node × List Int
  | [], g, tainted => (g, tainted)
  | node_id :: rest, g, tainted =>
    let level := (g.getD node_id.toNat default).level
    let children := cm.getD node_id.toNat []
    process_wave cm rest (write_children level children g) (tainted ++ children)

/-- One iteration of the wave loop: process the current wave and replace
`unassigned` by `list(set(tainted))`. -/
def wave_step (cm : List (List Int)) (st : List Node × List Int) :
    List Node × List Int :=
  let (g, tainted) := process_wave cm st.2 st.1 []
  (g, tainted.dedup)

/-- `assign_level_to_nodes_inplace(graph)`: initializes every level to 0,
runs at most `len(graph) + 1` waves, and raises `Cycle detected` with the
still-unassigned ids when the wavefront fails to empty.  Early `break` on
an empty wave agrees with running all iterations because an empty wave is
a fixed point of `wave_step`. -/
def assign_level_to_nodes_inplace (graph : List Node) :
    Except (List Int) (List Node) :=
  let cm := build_child_map graph
  let g0 := graph.map fun nd => { nd with level := 0 }
  let unassigned0 := graph.map fun nd => nd.node_id
  let st := (wave_step cm)^[graph.length + 1] (g0, unassigned0)
  if st.2.isEmpty then .ok st.1 else .error st.2

/-! ### List helper lemmas -/

theorem getD_set_self {α : Type} (l : List α) (i : Nat) (a d : α)
    (h : i < l.length) : (l.set i a).getD i d = a := by
  rw [List.getD_eq_getElem?_getD, List.getElem?_set_self',
    List.getElem?_eq_getElem h]
  rfl

theorem getD_set_ne {α : Type} (l : List α) (i j : Nat) (a d : α)
    (h : i ≠ j) : (l.set i a).getD j d = l.getD j d := by
  rw [List.getD_eq_getElem?_getD, List.getElem?_set_ne h,
    ← List.getD_eq_getElem?_getD]

theorem getD_of_length_le {α : Type} (l : List α) (i : Nat) (d : α)
    (h : l.length ≤ i) : l.getD i d = d := by
  rw [List.getD_eq_getElem?_getD, List.getElem?_eq_none h]
  rfl

theorem getD_map_of_lt {α β : Type} (f : α → β) (l : List α) (i : Nat)
    (d : β) (d' : α) (h : i < l.length) :
    (l.map f).getD i d = f (l.getD i d') := by
  rw [List.getD_eq_getElem?_getD, List.getElem?_map,
    List.getElem?_eq_getElem h, List.getD_eq_getElem?_getD,
    List.getElem?_eq_getElem h]
  rfl

theorem mem_setAdd {α : Type} [DecidableEq α] (l : List α) (a x : α) :
    x ∈ setAdd l a ↔ x ∈ l ∨ x = a := by
  unfold setAdd
  split
  · constructor
    · exact fun h => Or.inl h
    · rintro (h | rfl) <;> assumption
  · simp [List.mem_append]

theorem nodup_setAdd {α : Type} [DecidableEq α] (l : List α) (a : α)
    (h : l.Nodup) : (setAdd l a).Nodup := by
  unfold setAdd
  split
  · exact h
  · next hna => simpa [List.nodup_append] using ⟨h, fun hx => hna hx⟩

/-! ### Specification of `relLoop`, `depLoop`, `nodeLoop` -/

theorem relLoop_ok_spec (n nid : Int) :
    ∀ (rel : List Int) (uc uc' : List (Int × Int)),
    relLoop n nid rel uc = .ok uc' →
    (∀ r ∈ rel, max nid r < n) ∧
    (∀ x, x ∈ uc' ↔ x ∈ uc ∨ ∃ r ∈ rel, x = (min nid r, max nid r)) ∧
    (uc.Nodup → uc'.Nodup)
  | [], uc, uc', h => by
    simp only [relLoop, Except.ok.injEq] at h
    subst h
    refine ⟨by simp, fun x => by simp, id⟩
  | relative :: rest, uc, uc', h => by
    simp only [relLoop] at h
    split at h
    · exact absurd h (by simp)
    · next hlt =>
      obtain ⟨hbound, hmem, hnd⟩ := relLoop_ok_spec n nid rest _ uc' h
      push_neg at hlt
      refine ⟨?_, ?_, ?_⟩
      · intro r hr
        rcases List.mem_cons.mp hr with rfl | hr
        · exact hlt
        · exact hbound r hr
      · intro x
        rw [hmem x, mem_setAdd]
        constructor
        · rintro ((hx | rfl) | ⟨r, hr, rfl⟩)
          · exact Or.inl hx
          · exact Or.inr ⟨relative, by simp⟩
          · exact Or.inr ⟨r, by simp [hr]⟩
        · rintro (hx | ⟨r, hr, rfl⟩)
          · exact Or.inl (Or.inl hx)
          · rcases List.mem_cons.mp hr with rfl | hr
            · exact Or.inl (Or.inr rfl)
            · exact Or.inr ⟨r, hr, rfl⟩
      · exact fun hu => hnd (nodup_setAdd _ _ hu)

theorem relLoop_ok_of (n nid : Int) :
    ∀ (rel : List Int) (uc : List (Int × Int)),
    (∀ r ∈ rel, max nid r < n) →
    ∃ uc', relLoop n nid rel uc = .ok uc'
  | [], uc, _ => ⟨uc, rfl⟩
  | relative :: rest, uc, h => by
    have h1 : max nid relative < n := h relative (by simp)
    obtain ⟨uc', h2⟩ :=
      relLoop_ok_of n nid rest (setAdd uc (min nid relative, max nid relative))
        (fun r hr => h r (by simp [hr]))
    exact ⟨uc', by simp only [relLoop, if_neg (not_le.mpr h1)]; exact h2⟩

theorem depLoop_ok_spec (n nid : Int) :
    ∀ (dep : List Int) (ds ds' : List (Int × Int)),
    depLoop n nid dep ds = .ok ds' →
    (∀ d ∈ dep, d < n)
  | [], _, _, _ => by simp
  | dependency :: rest, ds, ds', h => by
    simp only [depLoop] at h
    split at h
    · exact absurd h (by simp)
    · next hlt =>
      push_neg at hlt
      intro d hd
      rcases List.mem_cons.mp hd with rfl | hd
      · exact hlt
      · exact depLoop_ok_spec n nid rest _ ds' h d hd

theorem depLoop_ok_of (n nid : Int) :
    ∀ (dep : List Int) (ds : List (Int × Int)),
    (∀ d ∈ dep, d < n) →
    ∃ ds', depLoop n nid dep ds = .ok ds'
  | [], ds, _ => ⟨ds, rfl⟩
  | dependency :: rest, ds, h => by
    have h1 : dependency < n := h dependency (by simp)
    obtain ⟨ds', h2⟩ :=
      depLoop_ok_of n nid rest (setAdd ds (nid, dependency))
        (fun d hd => h d (by simp [hd]))
    exact ⟨ds', by simp only [depLoop, if_neg (not_le.mpr h1)]; exact h2⟩

/-- Per-node success conditions of the `extract_connections` scan, for the
suffix of the graph starting at index `idx`. -/
def suffixOk (n : Int) : Nat → List Node → Prop
  | _, [] => True
  | idx, node :: rest =>
      node.node_id = (idx : Int) ∧
      (∀ r ∈ node.related_to, max node.node_id r < n) ∧
      (∀ d ∈ node.depends_on, d < n) ∧
      suffixOk n (idx + 1) rest

theorem except_ok_or_error {ε α : Type} (e : Except ε α) :
    (∃ a, e = .ok a) ∨ (∃ err, e = .error err) := by
  cases e
  · exact Or.inr ⟨_, rfl⟩
  · exact Or.inl ⟨_, rfl⟩

theorem except_bind_ok {ε α β : Type} (a : α) (f : α → Except ε β) :
    (Except.ok a >>= f) = f a := rfl

theorem except_bind_error {ε α β : Type} (e : ε) (f : α → Except ε β) :
    (Except.error e >>= f : Except ε β) = Except.error e := rfl

theorem nodeLoop_ok_iff (n : Int) :
    ∀ (nodes : List Node) (idx : Nat) (uc ds : List (Int × Int)),
    (∃ res, nodeLoop n idx nodes uc ds = .ok res) ↔ suffixOk n idx nodes
  | [], idx, uc, ds => by
    simp only [nodeLoop, suffixOk]
    exact ⟨fun _ => trivial, fun _ => ⟨_, rfl⟩⟩
  | node :: rest, idx, uc, ds => by
    simp only [nodeLoop, suffixOk]
    split
    · next hne =>
      constructor
      · rintro ⟨res, hres⟩
        exact absurd hres (by simp)
      · rintro ⟨hid, -⟩
        exact absurd hid hne
    · next hid =>
      push_neg at hid
      rcases except_ok_or_error (relLoop n node.node_id node.related_to uc) with
        ⟨uc', huc⟩ | ⟨err, herr⟩
      · rcases except_ok_or_error (depLoop n node.node_id node.depends_on ds) with
          ⟨ds', hds⟩ | ⟨err, herr⟩
        · rw [huc, except_bind_ok, hds, except_bind_ok]
          rw [nodeLoop_ok_iff n rest (idx + 1) uc' ds']
          obtain ⟨hbound, -, -⟩ := relLoop_ok_spec n node.node_id _ uc uc' huc
          have hdep := depLoop_ok_spec n node.node_id _ ds ds' hds
          exact ⟨fun h => ⟨hid, hbound, hdep, h⟩, fun h => h.2.2.2⟩
        · rw [huc, except_bind_ok, herr, except_bind_error]
          constructor
          · rintro ⟨res, hres⟩
            exact absurd hres (by simp)
          · rintro ⟨-, -, hdep, -⟩
            obtain ⟨ds', hds⟩ := depLoop_ok_of n node.node_id _ ds hdep
            rw [hds] at herr
            exact absurd herr (by simp)
      · rw [herr, except_bind_error]
        constructor
        · rintro ⟨res, hres⟩
          exact absurd hres (by simp)
        · rintro ⟨-, hbound, -⟩
          obtain ⟨uc', huc⟩ := relLoop_ok_of n node.node_id _ uc hbound
          rw [huc] at herr
          exact absurd herr (by simp)

theorem nodeLoop_ok_mem (n : Int) :
    ∀ (nodes : List Node) (idx : Nat) (uc ds : List (Int × Int))
    (ucf df : List (Int × Int)),
    nodeLoop n idx nodes uc ds = .ok (ucf, df) →
    (∀ x, x ∈ ucf ↔ x ∈ uc ∨ ∃ node ∈ nodes, ∃ r ∈ node.related_to,
        x = (min node.node_id r, max node.node_id r)) ∧
    (uc.Nodup → ucf.Nodup) ∧
    (∀ node ∈ nodes, ∀ r ∈ node.related_to, max node.node_id r < n)
  | [], idx, uc, ds, ucf, df, h => by
    simp only [nodeLoop, Except.ok.injEq, Prod.mk.injEq] at h
    obtain ⟨rfl, rfl⟩ := h
    exact ⟨fun x => by simp, id, by simp⟩
  | node :: rest, idx, uc, ds, ucf, df, h => by
    simp only [nodeLoop] at h
    split at h
    · exact absurd h (by simp)
    · rcases except_ok_or_error (relLoop n node.node_id node.related_to uc) with
        ⟨uc', huc⟩ | ⟨err, herr⟩
      · rcases except_ok_or_error (depLoop n node.node_id node.depends_on ds) with
          ⟨ds', hds⟩ | ⟨err, herr⟩
        · rw [huc, except_bind_ok, hds, except_bind_ok] at h
          obtain ⟨hmem, hnd, hbound⟩ :=
            nodeLoop_ok_mem n rest (idx + 1) uc' ds' ucf df h
          obtain ⟨hbound', hmem', hnd'⟩ :=
            relLoop_ok_spec n node.node_id _ uc uc' huc
          refine ⟨?_, fun hu => hnd (hnd' hu), ?_⟩
          · intro x
            rw [hmem x]
            constructor
            · rintro (hx | ⟨nd, hnd2, r, hr, rfl⟩)
              · rcases (hmem' x).mp hx with hx' | ⟨r, hr, rfl⟩
                · exact Or.inl hx'
                · exact Or.inr ⟨node, by simp, r, hr, rfl⟩
              · exact Or.inr ⟨nd, by simp [hnd2], r, hr, rfl⟩
            · rintro (hx | ⟨nd, hnd2, r, hr, rfl⟩)
              · exact Or.inl ((hmem' x).mpr (Or.inl hx))
              · rcases List.mem_cons.mp hnd2 with rfl | hnd2
                · exact Or.inl ((hmem' _).mpr (Or.inr ⟨r, hr, rfl⟩))
                · exact Or.inr ⟨nd, hnd2, r, hr, rfl⟩
          · intro nd hnd2 r hr
            rcases List.mem_cons.mp hnd2 with rfl | hnd2
            · exact hbound' r hr
            · exact hbound nd hnd2 r hr
        · rw [huc, except_bind_ok, herr, except_bind_error] at h
          exact absurd h (by simp)
      · rw [herr, except_bind_error] at h
        exact absurd h (by simp)

theorem suffixOk_iff_forall (n : Int) :
    ∀ (nodes : List Node) (idx : Nat),
    suffixOk n idx nodes ↔
      ∀ j, j < nodes.length →
        (nodes.getD j default).node_id = ((idx + j : Nat) : Int) ∧
        (∀ r ∈ (nodes.getD j default).related_to,
          max (nodes.getD j default).node_id r < n) ∧
        (∀ d ∈ (nodes.getD j default).depends_on, d < n)
  | [], idx => by simp [suffixOk]
  | node :: rest, idx => by
    rw [show suffixOk n idx (node :: rest) =
      (node.node_id = (idx : Int) ∧
        (∀ r ∈ node.related_to, max node.node_id r < n) ∧
        (∀ d ∈ node.depends_on, d < n) ∧
        suffixOk n (idx + 1) rest) from rfl]
    rw [suffixOk_iff_forall n rest (idx + 1)]
    constructor
    · rintro ⟨h1, h2, h3, h4⟩ j hj
      cases j with
      | zero =>
        show node.node_id = ((idx + 0 : Nat) : Int) ∧ _ ∧ _
        rw [Nat.add_zero]
        exact ⟨h1, h2, h3⟩
      | succ j' =>
        have hj2 : j' < rest.length := by
          simpa [Nat.succ_lt_succ_iff] using hj
        have e : idx + 1 + j' = idx + (j' + 1) := by omega
        have := h4 j' hj2
        rw [e] at this
        exact this
    · intro h
      have h0 := h 0 (by simp)
      rw [show ((node :: rest).getD 0 default) = node from rfl,
        Nat.add_zero] at h0
      refine ⟨h0.1, h0.2.1, h0.2.2, ?_⟩
      intro j' hj'
      have hj2 : j' + 1 < (node :: rest).length := by
        simpa [Nat.succ_lt_succ_iff] using hj'
      have := h (j' + 1) hj2
      rw [show ((node :: rest).getD (j' + 1) default) = rest.getD j' default
        from rfl] at this
      have e : idx + (j' + 1) = idx + 1 + j' := by omega
      rw [e] at this
      exact this

/-- A graph violates extraction validation when a declared id differs from
its index, or a `related_to` or `depends_on` reference is at least `n`. -/
def GraphViolation (g : List Node) : Prop :=
  (∃ i, i < g.length ∧ (g.getD i default).node_id ≠ (i : Int)) ∨
  (∃ i, i < g.length ∧ ∃ r ∈ (g.getD i default).related_to,
    (g.length : Int) ≤ r) ∨
  (∃ i, i < g.length ∧ ∃ d ∈ (g.getD i default).depends_on,
    (g.length : Int) ≤ d)

theorem extract_error_iff_nodeLoop (g : List Node) :
    (∃ e, extract_connections g = .error e) ↔
    ¬ ∃ res, nodeLoop (g.length : Int) 0 g [] [] = .ok res := by
  unfold extract_connections
  rcases except_ok_or_error (nodeLoop (g.length : Int) 0 g [] []) with
    ⟨⟨uc, ds⟩, hok⟩ | ⟨err, herr⟩
  · rw [hok, except_bind_ok]
    constructor
    · rintro ⟨e, he⟩
      exact absurd he (by simp [pure, Except.pure])
    · intro h
      exact absurd ⟨_, rfl⟩ h
  · rw [herr, except_bind_error]
    constructor
    · rintro ⟨e, -⟩ ⟨res, hres⟩
      exact absurd hres (by simp)
    · intro _
      exact ⟨err, rfl⟩

/-- C5: `extract_connections` raises iff a declared id differs from its
index in the node sequence or a referenced `related_to`/`depends_on` id is
at least `n`; in every other case it returns normally.  (The embedding is a
pure function of the input graph, so absence of other side effects holds by
construction.) -/
theorem claim_C5_validation_error_iff (g : List Node) :
    (∃ e, extract_connections g = .error e) ↔ GraphViolation g := by
  rw [extract_error_iff_nodeLoop g,
    nodeLoop_ok_iff (g.length : Int) g 0 [] [],
    suffixOk_iff_forall]
  unfold GraphViolation
  constructor
  · intro h
    by_contra hviol
    push_neg at hviol
    obtain ⟨h1, h2, h3⟩ := hviol
    apply h
    intro j hj
    have hid : (g.getD j default).node_id = (j : Int) := h1 j hj
    refine ⟨by rw [Nat.zero_add]; exact hid, ?_, ?_⟩
    · intro r hr
      rw [hid]
      exact max_lt (Int.ofNat_lt.mpr hj) (h2 j hj r hr)
    · exact fun d hd => h3 j hj d hd
  · intro hv h
    rcases hv with ⟨i, hi, hne⟩ | ⟨i, hi, r, hr, hge⟩ | ⟨i, hi, d, hd, hge⟩
    · have := (h i hi).1
      rw [Nat.zero_add] at this
      exact hne this
    · have hb := (h i hi).2.1 r hr
      have : r < (g.length : Int) := lt_of_le_of_lt (le_max_right _ _) hb
      exact absurd this (not_lt.mpr hge)
    · exact absurd ((h i hi).2.2 d hd) (not_lt.mpr hge)

instance : IsTotal (Int × Int) pairLE :=
  ⟨fun a b => by
    unfold pairLE
    rcases lt_trichotomy a.1 b.1 with h | h | h
    · exact Or.inl (Or.inl h)
    · rcases le_total a.2 b.2 with h2 | h2
      · exact Or.inl (Or.inr ⟨h, h2⟩)
      · exact Or.inr (Or.inr ⟨h.symm, h2⟩)
    · exact Or.inr (Or.inl h)⟩

instance : IsTrans (Int × Int) pairLE :=
  ⟨fun a b c hab hbc => by
    unfold pairLE at *
    rcases hab with h1 | ⟨h1, h1'⟩
    · rcases hbc with h2 | ⟨h2, h2'⟩
      · exact Or.inl (h1.trans h2)
      · exact Or.inl (h2 ▸ h1)
    · rcases hbc with h2 | ⟨h2, h2'⟩
      · exact Or.inl (h1 ▸ h2)
      · exact Or.inr ⟨h1.trans h2, h1'.trans h2'⟩⟩

theorem getD_eq_get {α : Type} (l : List α) (i : Nat) (d : α)
    (h : i < l.length) : l.getD i d = l.get ⟨i, h⟩ := by
  rw [List.getD_eq_getElem?_getD, List.getElem?_eq_getElem h]
  rfl

/-- On successful extraction, every node's declared id equals its index
(hence is nonnegative), a fact used to amend C4. -/
theorem extract_ok_node_id_eq_index (g : List Node)
    (res : List (Int × Int) × List (Int × Int))
    (hok : extract_connections g = .ok res) :
    ∀ j, j < g.length → (g.getD j default).node_id = (j : Int) := by
  have hloop : ∃ r, nodeLoop (g.length : Int) 0 g [] [] = .ok r := by
    rcases except_ok_or_error (nodeLoop (g.length : Int) 0 g [] []) with h | ⟨e, he⟩
    · exact h
    · exfalso
      have : ∃ e, extract_connections g = .error e := by
        unfold extract_connections
        rw [he, except_bind_error]
        exact ⟨e, rfl⟩
      obtain ⟨e', he'⟩ := this
      rw [hok] at he'
      exact absurd he' (by simp)
  rw [nodeLoop_ok_iff, suffixOk_iff_forall] at hloop
  intro j hj
  have := (hloop j hj).1
  rwa [Nat.zero_add] at this

/-- C4 (amended): on a successful extraction where every `related_to`
reference is nonnegative and no node lists itself, the undirected
connection list is sorted, duplicate-free, and each pair `(a, b)`
satisfies `0 ≤ a < b < n`. -/
theorem claim_C4_connections_sorted_bounded (g : List Node)
    (conns deps : List (Int × Int))
    (hok : extract_connections g = .ok (conns, deps))
    (hrel : ∀ node ∈ g, ∀ r ∈ node.related_to, 0 ≤ r ∧ r ≠ node.node_id) :
    List.Sorted pairLE conns ∧ conns.Nodup ∧
    ∀ p ∈ conns, 0 ≤ p.1 ∧ p.1 < p.2 ∧ p.2 < (g.length : Int) := by
  obtain ⟨⟨uc, ds⟩, hloop⟩ :
      ∃ r, nodeLoop (g.length : Int) 0 g [] [] = .ok r := by
    rcases except_ok_or_error (nodeLoop (g.length : Int) 0 g [] []) with h | ⟨e, he⟩
    · exact h
    · exfalso
      unfold extract_connections at hok
      rw [he, except_bind_error] at hok
      exact absurd hok (by simp)
  have hconns : conns = sortPairs uc ∧ deps = ds := by
    unfold extract_connections at hok
    rw [hloop, except_bind_ok] at hok
    have : (Except.ok (sortPairs uc, ds) :
        Except String (List (Int × Int) × List (Int × Int))) = .ok (conns, deps) := hok
    simp only [Except.ok.injEq, Prod.mk.injEq] at this
    exact ⟨this.1.symm, this.2.symm⟩
  obtain ⟨hmem, hnd, hbound⟩ :=
    nodeLoop_ok_mem (g.length : Int) g 0 [] [] uc ds hloop
  have hid := extract_ok_node_id_eq_index g (conns, deps) hok
  have hperm := List.perm_insertionSort pairLE uc
  have hmemc : ∀ p, p ∈ conns ↔ p ∈ uc := by
    intro p
    rw [hconns.1]
    exact hperm.mem_iff
  refine ⟨?_, ?_, ?_⟩
  · rw [hconns.1]
    exact List.sorted_insertionSort pairLE uc
  · rw [hconns.1]
    exact hperm.nodup_iff.mpr (hnd List.nodup_nil)
  · intro p hp
    rcases (hmem p).mp ((hmemc p).mp hp) with hnil | ⟨node, hnode, r, hr, rfl⟩
    · exact absurd hnil (List.not_mem_nil p)
    · obtain ⟨hr0, hrne⟩ := hrel node hnode r hr
      have hid0 : 0 ≤ node.node_id := by
        obtain ⟨⟨j, hj⟩, rfl⟩ := List.mem_iff_get.mp hnode
        rw [← getD_eq_get g j default hj, hid j hj]
        exact Int.ofNat_nonneg j
      refine ⟨le_min hid0 hr0, ?_, hbound node hnode r hr⟩
      exact min_lt_max.mpr (fun h => hrne h.symm)

/-- C4 is refuted as stated: a single node related to `-1` and to itself
extracts successfully, yet yields the pair `(-1, 0)` with a negative
component and the self-referential pair `(0, 0)`. -/
theorem claim_C4_counterexample :
    extract_connections [⟨0, [-1, 0], [], 0⟩] =
      .ok ([(-1, 0), (0, 0)], []) ∧
    ¬ (∀ p ∈ [((-1 : Int), (0 : Int)), ((0 : Int), (0 : Int))],
        0 ≤ p.1 ∧ p.1 < p.2) := by
  exact ⟨rfl, by decide⟩

/-- C4 witness: a two-node graph with one legitimate relation. -/
theorem claim_C4_witness :
    extract_connections [⟨0, [1], [], 0⟩, ⟨1, [0], [], 0⟩] =
      .ok ([(0, 1)], []) ∧
    (∀ node ∈ [(⟨0, [1], [], 0⟩ : Node), ⟨1, [0], [], 0⟩],
      ∀ r ∈ node.related_to, 0 ≤ r ∧ r ≠ node.node_id) ∧
    (List.Sorted pairLE [((0 : Int), (1 : Int))] ∧
      List.Nodup [((0 : Int), (1 : Int))] ∧
      ∀ p ∈ [((0 : Int), (1 : Int))], 0 ≤ p.1 ∧ p.1 < p.2 ∧
        p.2 < (([(⟨0, [1], [], 0⟩ : Node), ⟨1, [0], [], 0⟩] :
          List Node).length : Int)) :=
  ⟨rfl, by decide,
    claim_C4_connections_sorted_bounded
      [⟨0, [1], [], 0⟩, ⟨1, [0], [], 0⟩] [(0, 1)] [] rfl (by decide)⟩

/-! ### Physics engine

Python floats are modelled as real numbers; `np.random` draws are passed
in as explicit oracle arguments (`rand_unit`, `rand`, `rands`). -/

noncomputable section Physics
open scoped Classical

/-- `EPS = 1e-4`. -/
def EPS : ℝ := 1 / 10000

/-- Represents a 2D vector or point (`Vec2D` dataclass).  The Python class
mutates in place; the embedding returns new values, which is faithful for
every use below (each mutated vector is either freshly `copy()`d or its
alias is tracked explicitly in `update_position_all`). -/
@[ext]
structure Vec2D where
  x : ℝ := 0
  y : ℝ := 0

instance : Inhabited Vec2D := ⟨⟨0, 0⟩⟩

/-- Vector addition (`Vec2D.add`). -/
def Vec2D.add (v w : Vec2D) : Vec2D := ⟨v.x + w.x, v.y + w.y⟩

/-- Scalar multiplication (`Vec2D.scale`). -/
def Vec2D.scale (v : Vec2D) (alpha : ℝ) : Vec2D := ⟨v.x * alpha, v.y * alpha⟩

/-- Euclidean norm (`Vec2D.l2norm`, `(x*x + y*y) ** 0.5`). -/
def Vec2D.l2norm (v : Vec2D) : ℝ := Real.sqrt (v.x * v.x + v.y * v.y)

/-- Specification for a rectangle (`RectBox` dataclass). -/
@[ext]
structure RectBox where
  position : Vec2D
  velocity : Vec2D
  acceleration : Vec2D
  shape : Vec2D
  force : Vec2D := ⟨0, 0⟩

instance : Inhabited RectBox := ⟨⟨default, default, default, default, default⟩⟩

/-- Returns the center coordinates of the rectangle (`get_center`). -/
def RectBox.get_center (b : RectBox) : Vec2D :=
  ⟨b.position.x + b.shape.x / 2, b.position.y + b.shape.y / 2⟩

/-- Axis-aligned overlap test (`is_overlapping`), boundary inclusive. -/
def RectBox.is_overlapping (b other : RectBox) : Prop :=
  ¬ (b.position.x + b.shape.x < other.position.x ∨
     b.position.x > other.position.x + other.shape.x ∨
     b.position.y + b.shape.y < other.position.y ∨
     b.position.y > other.position.y + other.shape.y)

/-- Distance between the two boxes' centers, as computed by the force
routines (`(p1 - p2).l2norm()`). -/
def center_distance (b1 b2 : RectBox) : ℝ :=
  ((b1.get_center).add ((b2.get_center).scale (-1))).l2norm

/-- Simulation parameters (`Config` dataclass); `box_color` is
rendering-only and omitted. -/
structure Config where
  box_width : ℝ := 2
  box_height : ℝ := 1
  attraction_coef : ℝ := 1
  repulsion_coef : ℝ := 50
  repulsion_xscale : ℝ := 4
  level_coef : ℝ := 5
  level_offset : ℝ := 3
  overlap_scale : ℝ := 2
  slowing_coef : ℝ := 1 / 2
  canvas_size : ℝ := 20
  time_step : ℝ := 1 / 10
  mass : ℝ := 1

/-- Force on `b1` due to `b2` (`compute_coloumb_repulsive_force`). -/
def compute_coloumb_repulsive_force (cfg : Config) (b1 b2 : RectBox) : Vec2D :=
  let coef := cfg.repulsion_coef
  let xscale := cfg.repulsion_xscale
  let overlap_scale := cfg.overlap_scale
  let p1 := b1.get_center
  let p2 := b2.get_center
  let diff := p1.add (p2.scale (-1))
  let diff_norm0 := diff.l2norm
  let diff_norm := if diff_norm0 < EPS then EPS else diff_norm0
  let diff_unit := diff.scale (1 / diff_norm)
  let force_magnitude0 := coef / diff_norm ^ 2
  let force_magnitude :=
    if b1.is_overlapping b2 then force_magnitude0 * overlap_scale
    else force_magnitude0
  let force_vec := diff_unit.scale force_magnitude
  ⟨force_vec.x * xscale, force_vec.y⟩

/-- Leveling force on the child box (`compute_level_force`). -/
def compute_level_force (cfg : Config) (child parent : RectBox) : Vec2D :=
  let coef := cfg.level_coef
  let offset := cfg.level_offset
  let y_child := child.position.y
  let y_parent := parent.position.y
  let y_diff := y_child - (y_parent + offset)
  let force := if y_diff < 0 then coef * min |y_diff| 1 else 0
  ⟨0, -force⟩

/-- Attraction force on `b1` due to `b2` (`compute_attractive_force`).
`rand_unit` stands for the `get_random_unit_vector()` draw consumed when
the degenerate branch is reached. -/
def compute_attractive_force (cfg : Config) (b1 b2 : RectBox)
    (rand_unit : Vec2D) : Vec2D :=
  if b1.is_overlapping b2 then ⟨0, 0⟩
  else
    let coef := cfg.attraction_coef
    let p1 := b1.get_center
    let p2 := b2.get_center
    let diff := p1.add (p2.scale (-1))
    let diff_norm0 := diff.l2norm
    let diff_norm := if diff_norm0 < EPS then EPS else diff_norm0
    let diff_unit0 := diff.scale (1 / diff_norm)
    let diff_unit := if diff_norm ≤ EPS then rand_unit else diff_unit0
    let force_magnitude := coef * diff_norm
    diff_unit.scale (-force_magnitude)

/-- The repeated per-pair application pattern of the three pairwise
passes: `src_box.force.add(f)` and `dst_box.force.add(f.scale(-1))`. -/
def add_pair_forces (boxes : List RectBox) (i j : Nat) (fi : Vec2D) :
    List RectBox :=
  let src_box := boxes.getD i default
  let boxes1 := boxes.set i { src_box with force := src_box.force.add fi }
  let dst_box := boxes1.getD j default
  boxes1.set j { dst_box with force := dst_box.force.add (fi.scale (-1)) }

/-- The ordered index pairs `(src_idx, dst_idx)` with
`src_idx < dst_idx < n` visited by `compute_repulsive_all`. -/
def upper_pairs (n : Nat) : List (Nat × Nat) :=
  (List.range n).flatMap fun s =>
    (List.range n).filterMap fun d => if s < d then some (s, d) else none

/-- One pair of the repulsion pass. -/
def repulsive_pair_step (cfg : Config) (boxes : List RectBox)
    (p : Nat × Nat) : List RectBox :=
  add_pair_forces boxes p.1 p.2
    (compute_coloumb_repulsive_force cfg (boxes.getD p.1 default)
      (boxes.getD p.2 default))

/-- Every node repels every other node (`compute_repulsive_all`). -/
def compute_repulsive_all (cfg : Config) (boxes : List RectBox) :
    List RectBox :=
  (upper_pairs boxes.length).foldl (repulsive_pair_step cfg) boxes

/-- One dependency pair of the leveling pass. -/
def level_pair_step (cfg : Config) (boxes : List RectBox) (p : Nat × Nat) :
    List RectBox :=
  add_pair_forces boxes p.1 p.2
    (compute_level_force cfg (boxes.getD p.1 default) (boxes.getD p.2 default))

/-- Leveling pass over the `(child, parent)` dependency pairs
(`compute_level_force_all`). -/
def compute_level_force_all (cfg : Config) (dependencies : List (Nat × Nat))
    (boxes : List RectBox) : List RectBox :=
  dependencies.foldl (level_pair_step cfg) boxes

/-- One connection pair of the attraction pass. -/
def attractive_pair_step (cfg : Config) (rand_unit : Vec2D)
    (boxes : List RectBox) (p : Nat × Nat) : List RectBox :=
  add_pair_forces boxes p.1 p.2
    (compute_attractive_force cfg (boxes.getD p.1 default)
      (boxes.getD p.2 default) rand_unit)

/-- Attraction pass over the merged connection pairs
(`compute_attractive_all`); the `k`-th pair may consume the draw `rand k`. -/
def compute_attractive_all (cfg : Config) (connections : List (Nat × Nat))
    (rand : Nat → Vec2D) (boxes : List RectBox) : List RectBox :=
  (connections.enum).foldl
    (fun bs kp => attractive_pair_step cfg (rand kp.1) bs kp.2) boxes

/-- `clear_force_all`: the accumulator is reset at the start of a tick. -/
def clear_force_all (boxes : List RectBox) : List RectBox :=
  boxes.map fun rect => { rect with force := ⟨0, 0⟩ }

/-- Damping pass (`compute_slowing_all`). -/
def compute_slowing_all (cfg : Config) (boxes : List RectBox) :
    List RectBox :=
  boxes.map fun box =>
    let coef := cfg.slowing_coef
    let norm0 := box.velocity.l2norm
    let norm := if norm0 < EPS then EPS else norm0
    let velocity_unit := box.velocity.scale (1 / norm)
    let force_vec := velocity_unit.scale (-(coef * norm))
    { box with force := box.force.add force_vec }

/-- Integrator (`update_position_all`): semi-implicit Euler plus clamping
of each position axis to `[-limit, limit]`, `limit = canvas_size - 2`.
In the source `box.force.scale(1/mass)` mutates the force vector in place
and `box.acceleration` aliases it, so both fields end up holding the
scaled vector; the accumulator is cleared at the next tick anyway. -/
def update_position_all (cfg : Config) (boxes : List RectBox) :
    List RectBox :=
  let time_step := cfg.time_step
  let mass := cfg.mass
  let limit := cfg.canvas_size - 2
  boxes.map fun box =>
    let acceleration := box.force.scale (1 / mass)
    let velocity := box.velocity.add (acceleration.scale time_step)
    let position := box.position.add (velocity.scale time_step)
    { box with
      force := acceleration
      acceleration := acceleration
      velocity := velocity
      position := ⟨max (-limit) (min limit position.x),
                   max (-limit) (min limit position.y)⟩ }

/-- One tick (`run_simulation`): clear, repulsion, leveling, attraction,
damping, integrate. -/
def run_simulation (cfg : Config) (connections dependencies : List (Nat × Nat))
    (rand : Nat → Vec2D) (boxes : List RectBox) : List RectBox :=
  update_position_all cfg
    (compute_slowing_all cfg
      (compute_attractive_all cfg connections rand
        (compute_level_force_all cfg dependencies
          (compute_repulsive_all cfg
            (clear_force_all boxes)))))

/-- `k` consecutive ticks; `rands t` supplies the draws of tick `t`. -/
def run_ticks (cfg : Config) (connections dependencies : List (Nat × Nat))
    (rands : Nat → Nat → Vec2D) : Nat → List RectBox → List RectBox
  | 0, boxes => boxes
  | k + 1, boxes =>
    run_simulation cfg connections dependencies (rands k)
      (run_ticks cfg connections dependencies rands k boxes)

end Physics

/-! ### Per-pair force application lemmas -/

theorem getD_set_cases {α : Type} (l : List α) (i k : Nat) (a d : α) :
    (l.set i a).getD k d = if i = k ∧ i < l.length then a else l.getD k d := by
  split
  · next h =>
    rcases h with ⟨rfl, hlt⟩
    exact getD_set_self l i a d hlt
  · next h =>
    push_neg at h
    by_cases hik : i = k
    · subst hik
      have := h rfl
      rw [List.set_eq_of_length_le this]
    · exact getD_set_ne l i k a d hik

theorem Vec2D.add_scale_neg_one (f : Vec2D) : f.add (f.scale (-1)) = ⟨0, 0⟩ := by
  unfold Vec2D.add Vec2D.scale
  ext <;> ring

theorem add_pair_forces_length (boxes : List RectBox) (i j : Nat)
    (f : Vec2D) : (add_pair_forces boxes i j f).length = boxes.length := by
  unfold add_pair_forces
  simp [List.length_set]

theorem add_pair_forces_spec (boxes : List RectBox) (i j : Nat) (f : Vec2D)
    (hij : i ≠ j) (hi : i < boxes.length) (hj : j < boxes.length) :
    ((add_pair_forces boxes i j f).getD i default).force =
      ((boxes.getD i default).force).add f ∧
    ((add_pair_forces boxes i j f).getD j default).force =
      ((boxes.getD j default).force).add (f.scale (-1)) := by
  simp only [add_pair_forces]
  constructor
  · rw [getD_set_ne _ j i _ _ (Ne.symm hij), getD_set_self _ i _ _ hi]
  · rw [getD_set_self _ j _ _ (by rw [List.length_set]; exact hj),
      getD_set_ne _ i j _ _ hij]

theorem getD_set_box_fields (l : List RectBox) (i : Nat) (a : RectBox)
    (hp : a.position = (l.getD i default).position)
    (hs : a.shape = (l.getD i default).shape)
    (hv : a.velocity = (l.getD i default).velocity) (k : Nat) :
    ((l.set i a).getD k default).position = (l.getD k default).position ∧
    ((l.set i a).getD k default).shape = (l.getD k default).shape ∧
    ((l.set i a).getD k default).velocity = (l.getD k default).velocity := by
  rw [getD_set_cases]
  split
  · next h =>
    obtain ⟨rfl, -⟩ := h
    exact ⟨hp, hs, hv⟩
  · exact ⟨rfl, rfl, rfl⟩

theorem add_pair_forces_geom (boxes : List RectBox) (i j : Nat) (f : Vec2D)
    (k : Nat) :
    ((add_pair_forces boxes i j f).getD k default).position =
      (boxes.getD k default).position ∧
    ((add_pair_forces boxes i j f).getD k default).shape =
      (boxes.getD k default).shape ∧
    ((add_pair_forces boxes i j f).getD k default).velocity =
      (boxes.getD k default).velocity := by
  simp only [add_pair_forces]
  obtain ⟨h1, h2, h3⟩ :=
    getD_set_box_fields boxes i
      { boxes.getD i default with force := (boxes.getD i default).force.add f }
      rfl rfl rfl k
  obtain ⟨g1, g2, g3⟩ :=
    getD_set_box_fields
      (boxes.set i
        { boxes.getD i default with
          force := (boxes.getD i default).force.add f }) j
      { (boxes.set i
          { boxes.getD i default with
            force := (boxes.getD i default).force.add f }).getD j default with
        force :=
          ((boxes.set i
            { boxes.getD i default with
              force := (boxes.getD i default).force.add f }).getD j
                default).force.add (f.scale (-1)) }
      rfl rfl rfl k
  exact ⟨g1.trans h1, g2.trans h2, g3.trans h3⟩

/-- C8: in each of the repulsion, leveling and attraction passes, the force
vector added to one endpoint of a processed pair is the exact negation of
the force vector added to the other endpoint, so the two contributions sum
to `(0, 0)`. -/
theorem claim_C8_pairwise_forces_antisymmetric (cfg : Config)
    (boxes : List RectBox) (i j : Nat) (u : Vec2D)
    (hij : i ≠ j) (hi : i < boxes.length) (hj : j < boxes.length) :
    (((repulsive_pair_step cfg boxes (i, j)).getD i default).force =
        ((boxes.getD i default).force).add
          (compute_coloumb_repulsive_force cfg (boxes.getD i default)
            (boxes.getD j default)) ∧
      ((repulsive_pair_step cfg boxes (i, j)).getD j default).force =
        ((boxes.getD j default).force).add
          ((compute_coloumb_repulsive_force cfg (boxes.getD i default)
            (boxes.getD j default)).scale (-1)) ∧
      (compute_coloumb_repulsive_force cfg (boxes.getD i default)
          (boxes.getD j default)).add
        ((compute_coloumb_repulsive_force cfg (boxes.getD i default)
          (boxes.getD j default)).scale (-1)) = ⟨0, 0⟩) ∧
    (((level_pair_step cfg boxes (i, j)).getD i default).force =
        ((boxes.getD i default).force).add
          (compute_level_force cfg (boxes.getD i default)
            (boxes.getD j default)) ∧
      ((level_pair_step cfg boxes (i, j)).getD j default).force =
        ((boxes.getD j default).force).add
          ((compute_level_force cfg (boxes.getD i default)
            (boxes.getD j default)).scale (-1)) ∧
      (compute_level_force cfg (boxes.getD i default)
          (boxes.getD j default)).add
        ((compute_level_force cfg (boxes.getD i default)
          (boxes.getD j default)).scale (-1)) = ⟨0, 0⟩) ∧
    (((attractive_pair_step cfg u boxes (i, j)).getD i default).force =
        ((boxes.getD i default).force).add
          (compute_attractive_force cfg (boxes.getD i default)
            (boxes.getD j default) u) ∧
      ((attractive_pair_step cfg u boxes (i, j)).getD j default).force =
        ((boxes.getD j default).force).add
          ((compute_attractive_force cfg (boxes.getD i default)
            (boxes.getD j default) u).scale (-1)) ∧
      (compute_attractive_force cfg (boxes.getD i default)
          (boxes.getD j default) u).add
        ((compute_attractive_force cfg (boxes.getD i default)
          (boxes.getD j default) u).scale (-1)) = ⟨0, 0⟩) := by
  obtain ⟨h1, h2⟩ := add_pair_forces_spec boxes i j
    (compute_coloumb_repulsive_force cfg (boxes.getD i default)
      (boxes.getD j default)) hij hi hj
  obtain ⟨h3, h4⟩ := add_pair_forces_spec boxes i j
    (compute_level_force cfg (boxes.getD i default)
      (boxes.getD j default)) hij hi hj
  obtain ⟨h5, h6⟩ := add_pair_forces_spec boxes i j
    (compute_attractive_force cfg (boxes.getD i default)
      (boxes.getD j default) u) hij hi hj
  exact ⟨⟨h1, h2, Vec2D.add_scale_neg_one _⟩,
    ⟨h3, h4, Vec2D.add_scale_neg_one _⟩,
    ⟨h5, h6, Vec2D.add_scale_neg_one _⟩⟩

theorem EPS_pos : (0 : ℝ) < EPS := by
  unfold EPS
  norm_num

/-- C7: for a dependency pair, with `y_diff = child.y - (parent.y +
level_offset)`: if `y_diff < 0` the child receives exactly
`(0, -(level_coef * min |y_diff| 1))` and the parent the exact opposite
vector; if `0 ≤ y_diff` both contributions are zero; for nonnegative
`level_coef` the child contribution never has a positive `y` component and
its magnitude is capped at `level_coef`. -/
theorem claim_C7_level_force_one_sided (cfg : Config) (child parent : RectBox)
    (boxes : List RectBox) (i j : Nat)
    (hij : i ≠ j) (hi : i < boxes.length) (hj : j < boxes.length) :
    (child.position.y - (parent.position.y + cfg.level_offset) < 0 →
      compute_level_force cfg child parent =
        ⟨0, -(cfg.level_coef *
          min |child.position.y - (parent.position.y + cfg.level_offset)| 1)⟩) ∧
    (0 ≤ child.position.y - (parent.position.y + cfg.level_offset) →
      compute_level_force cfg child parent = ⟨0, 0⟩) ∧
    ((compute_level_force cfg child parent).x = 0) ∧
    (0 ≤ cfg.level_coef → (compute_level_force cfg child parent).y ≤ 0) ∧
    (0 ≤ cfg.level_coef →
      |(compute_level_force cfg child parent).y| ≤ cfg.level_coef) ∧
    (((level_pair_step cfg boxes (i, j)).getD i default).force =
      ((boxes.getD i default).force).add
        (compute_level_force cfg (boxes.getD i default)
          (boxes.getD j default)) ∧
     ((level_pair_step cfg boxes (i, j)).getD j default).force =
      ((boxes.getD j default).force).add
        ((compute_level_force cfg (boxes.getD i default)
          (boxes.getD j default)).scale (-1))) := by
  refine ⟨?_, ?_, ?_, ?_, ?_, ?_⟩
  · intro h
    simp only [compute_level_force]
    rw [if_pos h]
  · intro h
    simp only [compute_level_force]
    rw [if_neg (not_lt.mpr h)]
    ext <;> norm_num
  · simp only [compute_level_force]
  · intro hc
    simp only [compute_level_force]
    split
    · have hm : 0 ≤ min |child.position.y - (parent.position.y +
          cfg.level_offset)| 1 :=
        le_min (abs_nonneg _) zero_le_one
    -- the written component is -(coef * min ...), nonpositive
      simpa using mul_nonneg hc hm
    · simp
  · intro hc
    simp only [compute_level_force]
    split
    · next h =>
      have hm : 0 ≤ min |child.position.y - (parent.position.y +
          cfg.level_offset)| 1 :=
        le_min (abs_nonneg _) zero_le_one
      have h1 : min |child.position.y - (parent.position.y +
          cfg.level_offset)| 1 ≤ 1 := min_le_right _ _
      have : |(-(cfg.level_coef * min |child.position.y -
          (parent.position.y + cfg.level_offset)| 1) : ℝ)| =
          cfg.level_coef * min |child.position.y -
            (parent.position.y + cfg.level_offset)| 1 := by
        rw [abs_neg, abs_of_nonneg (mul_nonneg hc hm)]
      rw [this]
      calc cfg.level_coef * min |child.position.y -
            (parent.position.y + cfg.level_offset)| 1
          ≤ cfg.level_coef * 1 := by
            exact mul_le_mul_of_nonneg_left h1 hc
        _ = cfg.level_coef := mul_one _
    · simpa using hc
  · exact add_pair_forces_spec boxes i j
      (compute_level_force cfg (boxes.getD i default)
        (boxes.getD j default)) hij hi hj

/-- C6 (amended): the attraction contribution is zero on overlap;
otherwise, when the center distance exceeds ε it is the deterministic
linear spring `attraction_coef × (other_center - own_center)` (magnitude
`attraction_coef × center_distance`, directed toward the other center);
when the center distance is at most ε — not only strictly below ε — the
direction is the random unit draw and the magnitude is
`attraction_coef × ε` (the distance is floored at ε), not
`attraction_coef × center_distance`. -/
theorem claim_C6_attraction_amended (cfg : Config) (b1 b2 : RectBox)
    (u : Vec2D) :
    (b1.is_overlapping b2 → compute_attractive_force cfg b1 b2 u = ⟨0, 0⟩) ∧
    (¬ b1.is_overlapping b2 → EPS < center_distance b1 b2 →
      compute_attractive_force cfg b1 b2 u =
        ⟨cfg.attraction_coef * ((b2.get_center).x - (b1.get_center).x),
         cfg.attraction_coef * ((b2.get_center).y - (b1.get_center).y)⟩) ∧
    (0 ≤ cfg.attraction_coef → ¬ b1.is_overlapping b2 →
      EPS < center_distance b1 b2 →
      (compute_attractive_force cfg b1 b2 u).l2norm =
        cfg.attraction_coef * center_distance b1 b2) ∧
    (¬ b1.is_overlapping b2 → center_distance b1 b2 ≤ EPS →
      compute_attractive_force cfg b1 b2 u =
        u.scale (-(cfg.attraction_coef * EPS))) := by
  have hd0 : (0 : ℝ) < EPS := EPS_pos
  have hvec : ¬ b1.is_overlapping b2 → EPS < center_distance b1 b2 →
      compute_attractive_force cfg b1 b2 u =
        ⟨cfg.attraction_coef * ((b2.get_center).x - (b1.get_center).x),
         cfg.attraction_coef * ((b2.get_center).y - (b1.get_center).y)⟩ := by
    intro hov hlt
    simp only [compute_attractive_force, center_distance] at hlt ⊢
    rw [if_neg hov, if_neg (not_lt.mpr (le_of_lt hlt)),
      if_neg (not_le.mpr hlt)]
    have hne : ((b1.get_center).add ((b2.get_center).scale (-1))).l2norm ≠ 0 :=
      ne_of_gt (hd0.trans hlt)
    generalize ((b1.get_center).add ((b2.get_center).scale (-1))).l2norm = N
      at hne ⊢
    ext
    · simp only [Vec2D.scale, Vec2D.add]
      field_simp
      ring
    · simp only [Vec2D.scale, Vec2D.add]
      field_simp
      ring
  refine ⟨?_, hvec, ?_, ?_⟩
  · intro h
    simp only [compute_attractive_force]
    rw [if_pos h]
  · intro hc hov hlt
    rw [hvec hov hlt]
    simp only [Vec2D.l2norm, center_distance, Vec2D.add, Vec2D.scale,
      RectBox.get_center]
    rw [show ∀ a b : ℝ, cfg.attraction_coef * a * (cfg.attraction_coef * a) +
        cfg.attraction_coef * b * (cfg.attraction_coef * b) =
        cfg.attraction_coef ^ 2 * (a * a + b * b) from fun a b => by ring]
    rw [Real.sqrt_mul (sq_nonneg _), Real.sqrt_sq hc]
    congr 1
    ring
  · intro hov hle
    simp only [compute_attractive_force, center_distance] at hle ⊢
    rw [if_neg hov]
    by_cases hlt : ((b1.get_center).add ((b2.get_center).scale (-1))).l2norm < EPS
    · rw [if_pos hlt, if_pos le_rfl]
    · rw [if_neg hlt, if_pos hle]
      have : ((b1.get_center).add ((b2.get_center).scale (-1))).l2norm = EPS :=
        le_antisymm hle (not_lt.mp hlt)
      rw [this]

end Graphgen


namespace Graphgen

/-- A unit-ish test box at the origin. -/
noncomputable def box0 : RectBox := ⟨⟨0, 0⟩, ⟨0, 0⟩, ⟨0, 0⟩, ⟨2, 1⟩, ⟨0, 0⟩⟩

/-- A test box displaced to the right. -/
noncomputable def box10 : RectBox := ⟨⟨10, 0⟩, ⟨0, 0⟩, ⟨0, 0⟩, ⟨2, 1⟩, ⟨0, 0⟩⟩

/-- C8 witness: the three passes on a concrete two-box state. -/
theorem claim_C8_witness :
    (0 : Nat) ≠ 1 ∧ 0 < ([box0, box10] : List RectBox).length ∧
    1 < ([box0, box10] : List RectBox).length ∧
    (((repulsive_pair_step {} [box0, box10] (0, 1)).getD 0 default).force =
        ((([box0, box10] : List RectBox).getD 0 default).force).add
          (compute_coloumb_repulsive_force {}
            (([box0, box10] : List RectBox).getD 0 default)
            (([box0, box10] : List RectBox).getD 1 default)) ∧
      ((repulsive_pair_step {} [box0, box10] (0, 1)).getD 1 default).force =
        ((([box0, box10] : List RectBox).getD 1 default).force).add
          ((compute_coloumb_repulsive_force {}
            (([box0, box10] : List RectBox).getD 0 default)
            (([box0, box10] : List RectBox).getD 1 default)).scale (-1)) ∧
      (compute_coloumb_repulsive_force {}
          (([box0, box10] : List RectBox).getD 0 default)
          (([box0, box10] : List RectBox).getD 1 default)).add
        ((compute_coloumb_repulsive_force {}
          (([box0, box10] : List RectBox).getD 0 default)
          (([box0, box10] : List RectBox).getD 1 default)).scale (-1)) =
        ⟨0, 0⟩) ∧
    (((level_pair_step {} [box0, box10] (0, 1)).getD 0 default).force =
        ((([box0, box10] : List RectBox).getD 0 default).force).add
          (compute_level_force {}
            (([box0, box10] : List RectBox).getD 0 default)
            (([box0, box10] : List RectBox).getD 1 default)) ∧
      ((level_pair_step {} [box0, box10] (0, 1)).getD 1 default).force =
        ((([box0, box10] : List RectBox).getD 1 default).force).add
          ((compute_level_force {}
            (([box0, box10] : List RectBox).getD 0 default)
            (([box0, box10] : List RectBox).getD 1 default)).scale (-1)) ∧
      (compute_level_force {}
          (([box0, box10] : List RectBox).getD 0 default)
          (([box0, box10] : List RectBox).getD 1 default)).add
        ((compute_level_force {}
          (([box0, box10] : List RectBox).getD 0 default)
          (([box0, box10] : List RectBox).getD 1 default)).scale (-1)) =
        ⟨0, 0⟩) ∧
    (((attractive_pair_step {} ⟨1, 0⟩ [box0, box10] (0, 1)).getD 0
          default).force =
        ((([box0, box10] : List RectBox).getD 0 default).force).add
          (compute_attractive_force {}
            (([box0, box10] : List RectBox).getD 0 default)
            (([box0, box10] : List RectBox).getD 1 default) ⟨1, 0⟩) ∧
      ((attractive_pair_step {} ⟨1, 0⟩ [box0, box10] (0, 1)).getD 1
          default).force =
        ((([box0, box10] : List RectBox).getD 1 default).force).add
          ((compute_attractive_force {}
            (([box0, box10] : List RectBox).getD 0 default)
            (([box0, box10] : List RectBox).getD 1 default) ⟨1, 0⟩).scale
              (-1)) ∧
      (compute_attractive_force {}
          (([box0, box10] : List RectBox).getD 0 default)
          (([box0, box10] : List RectBox).getD 1 default) ⟨1, 0⟩).add
        ((compute_attractive_force {}
          (([box0, box10] : List RectBox).getD 0 default)
          (([box0, box10] : List RectBox).getD 1 default) ⟨1, 0⟩).scale
            (-1)) = ⟨0, 0⟩) :=
  ⟨by decide, by norm_num, by norm_num,
    claim_C8_pairwise_forces_antisymmetric {} [box0, box10] 0 1 ⟨1, 0⟩
      (by decide) (by norm_num) (by norm_num)⟩

/-- C7 witness: concrete dependency pair with the child three units below
the leveling offset. -/
theorem claim_C7_witness :
    (0 : Nat) ≠ 1 ∧ 0 < ([box0, box10] : List RectBox).length ∧
    1 < ([box0, box10] : List RectBox).length ∧
    box0.position.y - (box10.position.y + ({} : Config).level_offset) < 0 ∧
    compute_level_force {} box0 box10 =
      ⟨0, -(({} : Config).level_coef *
        min |box0.position.y - (box10.position.y +
          ({} : Config).level_offset)| 1)⟩ := by
  have h := claim_C7_level_force_one_sided {} box0 box10 [box0, box10] 0 1
    (by decide) (by norm_num) (by norm_num)
  have hy : box0.position.y - (box10.position.y +
      ({} : Config).level_offset) < 0 := by
    show (0 : ℝ) - (0 + 3) < 0
    norm_num
  exact ⟨by decide, by norm_num, by norm_num, hy, h.1 hy⟩

/-- C6 witness: for an overlapping pair (a box with itself) the attraction
contribution is zero. -/
theorem claim_C6_witness :
    RectBox.is_overlapping box0 box0 ∧
    compute_attractive_force {} box0 box0 ⟨1, 0⟩ = ⟨0, 0⟩ := by
  have hov : RectBox.is_overlapping box0 box0 := by
    unfold RectBox.is_overlapping box0
    norm_num
  exact ⟨hov, (claim_C6_attraction_amended {} box0 box0 ⟨1, 0⟩).1 hov⟩

/-- Degenerate counterexample boxes for C6: negative-height shapes make the
two centers coincide while the boxes do not overlap. -/
noncomputable def cexb1 : RectBox := ⟨⟨-(1/2), 2⟩, ⟨0, 0⟩, ⟨0, 0⟩, ⟨1, -4⟩, ⟨0, 0⟩⟩

/-- Second degenerate counterexample box for C6. -/
noncomputable def cexb2 : RectBox := ⟨⟨-(1/2), -1⟩, ⟨0, 0⟩, ⟨0, 0⟩, ⟨1, 2⟩, ⟨0, 0⟩⟩

/-- C6 is refuted as stated: at a non-overlapping pair with coincident
centers (distance 0 < ε) and the unit draw `(1, 0)`, the code returns the
vector `(-ε, 0)` of magnitude `attraction_coef × ε ≠ attraction_coef ×
center_distance = 0`. -/
theorem claim_C6_counterexample :
    ¬ RectBox.is_overlapping cexb1 cexb2 ∧
    center_distance cexb1 cexb2 = 0 ∧
    Vec2D.l2norm ⟨1, 0⟩ = 1 ∧
    compute_attractive_force {} cexb1 cexb2 ⟨1, 0⟩ = ⟨-EPS, 0⟩ ∧
    (compute_attractive_force {} cexb1 cexb2 ⟨1, 0⟩).l2norm ≠
      ({} : Config).attraction_coef * center_distance cexb1 cexb2 := by
  have hnov : ¬ RectBox.is_overlapping cexb1 cexb2 := by
    intro h
    exact h (Or.inr (Or.inr (Or.inl (by
      show (2 : ℝ) + (-4) < -1
      norm_num))))
  have hc1 : cexb1.get_center = ⟨0, 0⟩ := by
    unfold RectBox.get_center cexb1
    ext <;> norm_num
  have hc2 : cexb2.get_center = ⟨0, 0⟩ := by
    unfold RectBox.get_center cexb2
    ext <;> norm_num
  have hzn : (((⟨0, 0⟩ : Vec2D)).add ((⟨0, 0⟩ : Vec2D).scale (-1))).l2norm = 0 := by
    simp only [Vec2D.add, Vec2D.scale, Vec2D.l2norm]
    norm_num
  have hdist : center_distance cexb1 cexb2 = 0 := by
    rw [center_distance, hc1, hc2, hzn]
  have hone : Vec2D.l2norm ⟨1, 0⟩ = 1 := by
    simp only [Vec2D.l2norm]
    norm_num
  have hforce : compute_attractive_force {} cexb1 cexb2 ⟨1, 0⟩ = ⟨-EPS, 0⟩ := by
    simp only [compute_attractive_force]
    rw [if_neg hnov, hc1, hc2, hzn, if_pos EPS_pos, if_pos le_rfl]
    show Vec2D.scale ⟨1, 0⟩ (-(({} : Config).attraction_coef * EPS)) = _
    simp only [Vec2D.scale]
    ext
    · show (1 : ℝ) * -(1 * EPS) = -EPS
      norm_num
    · show (0 : ℝ) * -(1 * EPS) = 0
      norm_num
  refine ⟨hnov, hdist, hone, hforce, ?_⟩
  rw [hforce, hdist, mul_zero]
  simp only [Vec2D.l2norm]
  rw [show (-EPS) * (-EPS) + (0 : ℝ) * 0 = EPS * EPS from by ring,
    Real.sqrt_mul_self (le_of_lt EPS_pos)]
  exact ne_of_gt EPS_pos

end Graphgen

namespace Graphgen

/-- C9 (amended): for every configuration with `canvas_size ≥ 2`, every
connection/dependency lists, every random source and every initial state,
after at least one tick every box's position components lie within
`[-(canvas_size - 2), canvas_size - 2]`; the integrator clamps each axis
independently on every tick and no other pass moves positions. -/
theorem claim_C9_positions_clamped (cfg : Config)
    (connections dependencies : List (Nat × Nat)) (rands : Nat → Nat → Vec2D)
    (boxes : List RectBox) (k : Nat) (hcs : 2 ≤ cfg.canvas_size)
    (hk : 1 ≤ k) :
    ∀ b ∈ run_ticks cfg connections dependencies rands k boxes,
      -(cfg.canvas_size - 2) ≤ b.position.x ∧
      b.position.x ≤ cfg.canvas_size - 2 ∧
      -(cfg.canvas_size - 2) ≤ b.position.y ∧
      b.position.y ≤ cfg.canvas_size - 2 := by
  have hlim : -(cfg.canvas_size - 2) ≤ cfg.canvas_size - 2 := by linarith
  obtain ⟨m, rfl⟩ : ∃ m, k = m + 1 := ⟨k - 1, by omega⟩
  intro b hb
  simp only [run_ticks, run_simulation, update_position_all,
    List.mem_map] at hb
  obtain ⟨box, -, rfl⟩ := hb
  refine ⟨le_max_left _ _, ?_, le_max_left _ _, ?_⟩
  · exact max_le hlim (min_le_left _ _)
  · exact max_le hlim (min_le_left _ _)

/-- The single box used in the C9 counterexample. -/
noncomputable def cbox : RectBox := ⟨⟨0, 0⟩, ⟨0, 0⟩, ⟨0, 0⟩, ⟨1, 1⟩, ⟨0, 0⟩⟩

/-- Configuration with a degenerate canvas for the C9 counterexample. -/
noncomputable def cfg0 : Config := { canvas_size := 0 }

/-- C9 is refuted as stated for configurations with `canvas_size < 2`:
with `canvas_size = 0` the clamp interval `[2, -2]` is empty and after one
tick the box sits at `x = 2 > canvas_size - 2 = -2`. -/
theorem claim_C9_counterexample :
    ∃ b ∈ run_ticks cfg0 [] [] (fun _ _ => ⟨0, 0⟩) 1 [cbox],
      ¬ (-(cfg0.canvas_size - 2) ≤ b.position.x ∧
         b.position.x ≤ cfg0.canvas_size - 2) := by
  have hslow : compute_slowing_all cfg0 [cbox] = [cbox] := by
    simp only [compute_slowing_all, List.map_cons, List.map_nil]
    congr 1
    ext <;> simp only [cbox, Vec2D.add, Vec2D.scale] <;> norm_num
  have hrun : run_ticks cfg0 [] [] (fun _ _ => ⟨0, 0⟩) 1 [cbox] =
      update_position_all cfg0 [cbox] := by
    show run_simulation cfg0 [] [] _ [cbox] = _
    unfold run_simulation
    rw [show clear_force_all [cbox] = [cbox] from rfl]
    rw [show compute_repulsive_all cfg0 [cbox] = [cbox] from rfl]
    rw [show compute_level_force_all cfg0 [] [cbox] = [cbox] from rfl]
    rw [show compute_attractive_all cfg0 [] (fun _ => ⟨0, 0⟩) [cbox] = [cbox]
      from rfl]
    rw [hslow]
  rw [hrun]
  refine ⟨(update_position_all cfg0 [cbox]).getD 0 default, ?_, ?_⟩
  · simp only [update_position_all, List.map_cons, List.map_nil]
    exact List.mem_cons_self _ _
  · simp only [update_position_all, List.map_cons, List.map_nil]
    rw [show ∀ a : RectBox, ([a] : List RectBox).getD 0 default = a
      from fun a => rfl]
    have hX : (cbox.position.add ((cbox.velocity.add ((cbox.force.scale
        (1 / cfg0.mass)).scale cfg0.time_step)).scale cfg0.time_step)).x
        = 0 := by
      simp only [cbox, cfg0, Vec2D.add, Vec2D.scale]
      norm_num
    intro hand
    have h2 := hand.2
    rw [hX] at h2
    rw [show cfg0.canvas_size = 0 from rfl] at h2
    norm_num [min_def, max_def] at h2

end Graphgen

namespace Graphgen

/-- C9 witness: the default configuration after one tick. -/
theorem claim_C9_witness :
    (2 : ℝ) ≤ ({} : Config).canvas_size ∧ (1 : Nat) ≤ 1 ∧
    ∀ b ∈ run_ticks {} [] [] (fun _ _ => ⟨0, 0⟩) 1 [cbox],
      -(({} : Config).canvas_size - 2) ≤ b.position.x ∧
      b.position.x ≤ ({} : Config).canvas_size - 2 ∧
      -(({} : Config).canvas_size - 2) ≤ b.position.y ∧
      b.position.y ≤ ({} : Config).canvas_size - 2 :=
  ⟨by show (2 : ℝ) ≤ 20; norm_num, le_rfl,
    claim_C9_positions_clamped {} [] [] (fun _ _ => ⟨0, 0⟩) [cbox] 1
      (by show (2 : ℝ) ≤ 20; norm_num) le_rfl⟩

/-! ### C10: shapes above ε rule out the random fallback -/

theorem abs_center_dx_le (b1 b2 : RectBox) :
    |(b1.get_center).x - (b2.get_center).x| ≤ center_distance b1 b2 := by
  unfold center_distance Vec2D.l2norm Vec2D.add Vec2D.scale
  simp only
  rw [← Real.sqrt_mul_self_eq_abs]
  apply Real.sqrt_le_sqrt
  nlinarith [sq_nonneg ((b1.get_center).y + (b2.get_center).y * (-1)),
    sq_nonneg ((b1.get_center).x - (b2.get_center).x)]

theorem abs_center_dy_le (b1 b2 : RectBox) :
    |(b1.get_center).y - (b2.get_center).y| ≤ center_distance b1 b2 := by
  unfold center_distance Vec2D.l2norm Vec2D.add Vec2D.scale
  simp only
  rw [← Real.sqrt_mul_self_eq_abs]
  apply Real.sqrt_le_sqrt
  nlinarith [sq_nonneg ((b1.get_center).x + (b2.get_center).x * (-1)),
    sq_nonneg ((b1.get_center).y - (b2.get_center).y)]

/-- Geometric core of C10: if both shapes of both boxes exceed ε, a pair
with center distance at most ε necessarily overlaps. -/
theorem close_centers_overlap (b1 b2 : RectBox)
    (h1x : EPS < b1.shape.x) (h1y : EPS < b1.shape.y)
    (h2x : EPS < b2.shape.x) (h2y : EPS < b2.shape.y)
    (hd : center_distance b1 b2 ≤ EPS) : b1.is_overlapping b2 := by
  have hdx := abs_center_dx_le b1 b2
  have hdy := abs_center_dy_le b1 b2
  intro hsep
  rcases hsep with h | h | h | h
  · have hcx : (b1.get_center).x - (b2.get_center).x <
        -((b1.shape.x + b2.shape.x) / 2) := by
      unfold RectBox.get_center
      simp only
      linarith
    have : EPS < -((b1.get_center).x - (b2.get_center).x) := by linarith
    have habs := neg_le_abs ((b1.get_center).x - (b2.get_center).x)
    linarith
  · have hcx : (b1.shape.x + b2.shape.x) / 2 <
        (b1.get_center).x - (b2.get_center).x := by
      unfold RectBox.get_center
      simp only
      linarith
    have habs := le_abs_self ((b1.get_center).x - (b2.get_center).x)
    linarith
  · have hcy : (b1.get_center).y - (b2.get_center).y <
        -((b1.shape.y + b2.shape.y) / 2) := by
      unfold RectBox.get_center
      simp only
      linarith
    have : EPS < -((b1.get_center).y - (b2.get_center).y) := by linarith
    have habs := neg_le_abs ((b1.get_center).y - (b2.get_center).y)
    linarith
  · have hcy : (b1.shape.y + b2.shape.y) / 2 <
        (b1.get_center).y - (b2.get_center).y := by
      unfold RectBox.get_center
      simp only
      linarith
    have habs := le_abs_self ((b1.get_center).y - (b2.get_center).y)
    linarith

/-- When both boxes have shape components above ε, the attraction force
does not depend on the random draw: either the pair overlaps (force zero)
or its center distance exceeds ε and the deterministic branch is taken. -/
theorem compute_attractive_force_rand_irrelevant (cfg : Config)
    (b1 b2 : RectBox) (u u' : Vec2D)
    (h1x : EPS < b1.shape.x) (h1y : EPS < b1.shape.y)
    (h2x : EPS < b2.shape.x) (h2y : EPS < b2.shape.y) :
    compute_attractive_force cfg b1 b2 u =
      compute_attractive_force cfg b1 b2 u' := by
  by_cases hov : b1.is_overlapping b2
  · simp only [compute_attractive_force]
    rw [if_pos hov, if_pos hov]
  · have hd : EPS < center_distance b1 b2 := by
      by_contra hle
      exact hov (close_centers_overlap b1 b2 h1x h1y h2x h2y (not_lt.mp hle))
    simp only [compute_attractive_force, center_distance] at hd ⊢
    rw [if_neg hov, if_neg hov, if_neg (not_lt.mpr (le_of_lt hd)),
      if_neg (not_le.mpr hd), if_neg (not_le.mpr hd)]

end Graphgen

namespace Graphgen

theorem foldl_pair_geom {β : Type} (f : List RectBox → β → List RectBox)
    (hf : ∀ (bs : List RectBox) (p : β) (k : Nat),
      ((f bs p).getD k default).position = (bs.getD k default).position ∧
      ((f bs p).getD k default).shape = (bs.getD k default).shape ∧
      (f bs p).length = bs.length) :
    ∀ (l : List β) (bs : List RectBox) (k : Nat),
      ((l.foldl f bs).getD k default).position =
        (bs.getD k default).position ∧
      ((l.foldl f bs).getD k default).shape = (bs.getD k default).shape ∧
      (l.foldl f bs).length = bs.length
  | [], bs, k => ⟨rfl, rfl, rfl⟩
  | p :: rest, bs, k => by
    rw [List.foldl_cons]
    obtain ⟨h1, h2, h3⟩ := foldl_pair_geom f hf rest (f bs p) k
    obtain ⟨g1, g2, g3⟩ := hf bs p k
    exact ⟨h1.trans g1, h2.trans g2, h3.trans g3⟩

theorem repulsive_all_geom (cfg : Config) (boxes : List RectBox) (k : Nat) :
    ((compute_repulsive_all cfg boxes).getD k default).position =
      (boxes.getD k default).position ∧
    ((compute_repulsive_all cfg boxes).getD k default).shape =
      (boxes.getD k default).shape ∧
    (compute_repulsive_all cfg boxes).length = boxes.length := by
  unfold compute_repulsive_all
  exact foldl_pair_geom (repulsive_pair_step cfg)
    (fun bs p k' => by
      unfold repulsive_pair_step
      obtain ⟨h1, h2, -⟩ := add_pair_forces_geom bs p.1 p.2 _ k'
      exact ⟨h1, h2, add_pair_forces_length ..⟩)
    (upper_pairs boxes.length) boxes k

theorem level_all_geom (cfg : Config) (deps : List (Nat × Nat))
    (boxes : List RectBox) (k : Nat) :
    ((compute_level_force_all cfg deps boxes).getD k default).position =
      (boxes.getD k default).position ∧
    ((compute_level_force_all cfg deps boxes).getD k default).shape =
      (boxes.getD k default).shape ∧
    (compute_level_force_all cfg deps boxes).length = boxes.length := by
  unfold compute_level_force_all
  exact foldl_pair_geom (level_pair_step cfg)
    (fun bs p k' => by
      unfold level_pair_step
      obtain ⟨h1, h2, -⟩ := add_pair_forces_geom bs p.1 p.2 _ k'
      exact ⟨h1, h2, add_pair_forces_length ..⟩)
    deps boxes k

theorem clear_force_all_geom (boxes : List RectBox) (k : Nat) :
    ((clear_force_all boxes).getD k default).position =
      (boxes.getD k default).position ∧
    ((clear_force_all boxes).getD k default).shape =
      (boxes.getD k default).shape ∧
    (clear_force_all boxes).length = boxes.length := by
  unfold clear_force_all
  by_cases hk : k < boxes.length
  · rw [getD_map_of_lt _ boxes k default default hk]
    exact ⟨rfl, rfl, List.length_map ..⟩
  · rw [getD_of_length_le _ k default
      (by rw [List.length_map]; exact le_of_not_lt hk),
      getD_of_length_le boxes k default (le_of_not_lt hk)]
    exact ⟨rfl, rfl, List.length_map ..⟩

/-- The attraction fold ignores the random source when every box indexed
by the pair list has both shape components above ε. -/
theorem attr_fold_rand_irrelevant (cfg : Config) (r1 r2 : Nat → Vec2D) :
    ∀ (l : List (Nat × (Nat × Nat))) (bs : List RectBox),
    (∀ kp ∈ l,
      EPS < (bs.getD kp.2.1 default).shape.x ∧
      EPS < (bs.getD kp.2.1 default).shape.y ∧
      EPS < (bs.getD kp.2.2 default).shape.x ∧
      EPS < (bs.getD kp.2.2 default).shape.y) →
    l.foldl (fun bs' kp => attractive_pair_step cfg (r1 kp.1) bs' kp.2) bs =
    l.foldl (fun bs' kp => attractive_pair_step cfg (r2 kp.1) bs' kp.2) bs
  | [], bs, _ => rfl
  | kp :: rest, bs, h => by
    rw [List.foldl_cons, List.foldl_cons]
    obtain ⟨hx1, hy1, hx2, hy2⟩ := h kp (List.mem_cons_self ..)
    have hstep : attractive_pair_step cfg (r1 kp.1) bs kp.2 =
        attractive_pair_step cfg (r2 kp.1) bs kp.2 := by
      unfold attractive_pair_step
      rw [compute_attractive_force_rand_irrelevant cfg
        (bs.getD kp.2.1 default) (bs.getD kp.2.2 default)
        (r1 kp.1) (r2 kp.1) hx1 hy1 hx2 hy2]
    rw [hstep]
    apply attr_fold_rand_irrelevant cfg r1 r2 rest
    intro kp' hkp'
    obtain ⟨hp1, hs1, -⟩ := add_pair_forces_geom bs kp.2.1 kp.2.2
      (compute_attractive_force cfg (bs.getD kp.2.1 default)
        (bs.getD kp.2.2 default) (r2 kp.1)) kp'.2.1
    obtain ⟨hp2, hs2, -⟩ := add_pair_forces_geom bs kp.2.1 kp.2.2
      (compute_attractive_force cfg (bs.getD kp.2.1 default)
        (bs.getD kp.2.2 default) (r2 kp.1)) kp'.2.2
    obtain ⟨gx1, gy1, gx2, gy2⟩ := h kp' (List.mem_cons_of_mem _ hkp')
    unfold attractive_pair_step
    rw [show ((add_pair_forces bs kp.2.1 kp.2.2
        (compute_attractive_force cfg (bs.getD kp.2.1 default)
          (bs.getD kp.2.2 default) (r2 kp.1))).getD kp'.2.1 default).shape =
        ((bs.getD kp'.2.1 default)).shape from hs1]
    rw [show ((add_pair_forces bs kp.2.1 kp.2.2
        (compute_attractive_force cfg (bs.getD kp.2.1 default)
          (bs.getD kp.2.2 default) (r2 kp.1))).getD kp'.2.2 default).shape =
        ((bs.getD kp'.2.2 default)).shape from hs2]
    exact ⟨gx1, gy1, gx2, gy2⟩

end Graphgen

namespace Graphgen

theorem getD_mem_of_lt (l : List RectBox) (k : Nat) (h : k < l.length) :
    l.getD k default ∈ l := by
  rw [getD_eq_get l k default h]
  exact List.get_mem l k h

theorem pre_attraction_shape (cfg : Config) (deps : List (Nat × Nat))
    (boxes : List RectBox) (k : Nat) :
    ((compute_level_force_all cfg deps
      (compute_repulsive_all cfg (clear_force_all boxes))).getD k
        default).shape = (boxes.getD k default).shape := by
  obtain ⟨-, h3, -⟩ :=
    level_all_geom cfg deps (compute_repulsive_all cfg (clear_force_all boxes)) k
  obtain ⟨-, h2, -⟩ := repulsive_all_geom cfg (clear_force_all boxes) k
  obtain ⟨-, h1, -⟩ := clear_force_all_geom boxes k
  exact (h3.trans h2).trans h1

/-- C10: when every box's shape components exceed ε, a connected pair with
center distance at most ε necessarily overlaps, so the attraction
computation returns the zero vector before the random fallback is reached;
consequently a tick consumes no randomness: two ticks from equal states
under any two random sources produce equal states. -/
theorem claim_C10_fat_shapes_deterministic :
    (∀ (cfg : Config) (b1 b2 : RectBox) (u : Vec2D),
      EPS < b1.shape.x → EPS < b1.shape.y →
      EPS < b2.shape.x → EPS < b2.shape.y →
      center_distance b1 b2 ≤ EPS →
      b1.is_overlapping b2 ∧
        compute_attractive_force cfg b1 b2 u = ⟨0, 0⟩) ∧
    (∀ (cfg : Config) (connections dependencies : List (Nat × Nat))
      (boxes : List RectBox) (r1 r2 : Nat → Vec2D),
      (∀ b ∈ boxes, EPS < b.shape.x ∧ EPS < b.shape.y) →
      (∀ p ∈ connections, p.1 < boxes.length ∧ p.2 < boxes.length) →
      run_simulation cfg connections dependencies r1 boxes =
        run_simulation cfg connections dependencies r2 boxes) := by
  constructor
  · intro cfg b1 b2 u h1x h1y h2x h2y hd
    have hov := close_centers_overlap b1 b2 h1x h1y h2x h2y hd
    refine ⟨hov, ?_⟩
    simp only [compute_attractive_force]
    rw [if_pos hov]
  · intro cfg conns deps boxes r1 r2 hshape hconn
    unfold run_simulation
    congr 1
    congr 1
    unfold compute_attractive_all
    apply attr_fold_rand_irrelevant
    rintro ⟨i, p⟩ hkp
    obtain ⟨hi, hval⟩ := List.mem_enum hkp
    have hp : p ∈ conns := by
      rw [hval]
      exact List.getElem_mem hi
    obtain ⟨hp1, hp2⟩ := hconn p hp
    have hs1 := hshape (boxes.getD p.1 default) (getD_mem_of_lt boxes p.1 hp1)
    have hs2 := hshape (boxes.getD p.2 default) (getD_mem_of_lt boxes p.2 hp2)
    rw [show ((i, p) : Nat × (Nat × Nat)).2 = p from rfl]
    rw [pre_attraction_shape cfg deps boxes p.1,
      pre_attraction_shape cfg deps boxes p.2]
    exact ⟨hs1.1, hs1.2, hs2.1, hs2.2⟩

/-- C10 witness: two fat boxes, one connection, two different random
sources. -/
theorem claim_C10_witness :
    (∀ b ∈ ([box0, box10] : List RectBox),
      EPS < b.shape.x ∧ EPS < b.shape.y) ∧
    (∀ p ∈ ([(0, 1)] : List (Nat × Nat)),
      p.1 < ([box0, box10] : List RectBox).length ∧
      p.2 < ([box0, box10] : List RectBox).length) ∧
    run_simulation {} [(0, 1)] [] (fun _ => ⟨1, 0⟩) [box0, box10] =
      run_simulation {} [(0, 1)] [] (fun _ => ⟨0, 1⟩) [box0, box10] := by
  have hsh : ∀ b ∈ ([box0, box10] : List RectBox),
      EPS < b.shape.x ∧ EPS < b.shape.y := by
    intro b hb
    rcases List.mem_cons.mp hb with rfl | hb
    · constructor
      · show EPS < (2 : ℝ)
        rw [show EPS = 1 / 10000 from rfl]
        norm_num
      · show EPS < (1 : ℝ)
        rw [show EPS = 1 / 10000 from rfl]
        norm_num
    · rcases List.mem_cons.mp hb with rfl | hb
      · constructor
        · show EPS < (2 : ℝ)
          rw [show EPS = 1 / 10000 from rfl]
          norm_num
        · show EPS < (1 : ℝ)
          rw [show EPS = 1 / 10000 from rfl]
          norm_num
      · exact absurd hb (List.not_mem_nil b)
  have hcn : ∀ p ∈ ([(0, 1)] : List (Nat × Nat)),
      p.1 < ([box0, box10] : List RectBox).length ∧
      p.2 < ([box0, box10] : List RectBox).length := by
    intro p hp
    rcases List.mem_cons.mp hp with rfl | hp
    · exact ⟨by norm_num, by norm_num⟩
    · exact absurd hp (List.not_mem_nil p)
  exact ⟨hsh, hcn,
    claim_C10_fat_shapes_deterministic.2 {} [(0, 1)] [] [box0, box10]
      (fun _ => ⟨1, 0⟩) (fun _ => ⟨0, 1⟩) hsh hcn⟩

end Graphgen

namespace Graphgen

/-! ### Level assignment: walks, cycles and the wavefront characterization -/

/-- The id/range invariant assumed by the leveling claims: every declared
id equals its index and every dependency reference lies in `[0, n)`. -/
def ValidGraph (g : List Node) : Prop :=
  (∀ i, i < g.length → (g.getD i default).node_id = (i : Int)) ∧
  (∀ i, i < g.length → ∀ d ∈ (g.getD i default).depends_on,
    0 ≤ d ∧ d < (g.length : Int))

/-- Propagation edge `u → v`: node `v` depends on `u`. -/
def DepEdge (g : List Node) (u v : Nat) : Prop :=
  v < g.length ∧ (u : Int) ∈ (g.getD v default).depends_on

/-- A walk of length `k` along propagation edges ending at `v`, starting
anywhere among the nodes. -/
def WalkEnd (g : List Node) (k : Nat) (v : Nat) : Prop :=
  ∃ f : Nat → Nat, f k = v ∧ f 0 < g.length ∧
    ∀ i, i < k → DepEdge g (f i) (f (i + 1))

/-- A walk of length `k` from `u` to `v`. -/
def WalkFromTo (g : List Node) (k : Nat) (u v : Nat) : Prop :=
  ∃ f : Nat → Nat, f 0 = u ∧ f k = v ∧
    ∀ i, i < k → DepEdge g (f i) (f (i + 1))

/-- `u` lies on a dependency cycle. -/
def OnCycle (g : List Node) (u : Nat) : Prop :=
  ∃ c, 0 < c ∧ WalkFromTo g c u u

/-- The dependency edges contain a cycle. -/
def HasCycle (g : List Node) : Prop := ∃ u, OnCycle g u

/-- `v` lies on a dependency cycle or downstream of one (reachable from a
cycle node via parent-to-child edges). -/
def CycleDownstream (g : List Node) (v : Nat) : Prop :=
  ∃ u, OnCycle g u ∧ ∃ p, WalkFromTo g p u v

/-- `L` is the longest-path depth of `v`: the greatest length of a
dependency walk ending at `v` (in an acyclic graph, walks are paths). -/
def IsLongestWalkLevel (g : List Node) (v : Nat) (L : Int) : Prop :=
  ∃ k : Nat, L = (k : Int) ∧ WalkEnd g k v ∧ ∀ m, WalkEnd g m v → m ≤ k

theorem walkEnd_zero (g : List Node) (v : Nat) :
    WalkEnd g 0 v ↔ v < g.length := by
  constructor
  · rintro ⟨f, rfl, h0, -⟩
    exact h0
  · intro hv
    exact ⟨fun _ => v, rfl, hv, fun i hi => absurd hi (Nat.not_lt_zero i)⟩

theorem walkEnd_succ (g : List Node) (k : Nat) (v : Nat) :
    WalkEnd g (k + 1) v ↔ ∃ u, WalkEnd g k u ∧ DepEdge g u v := by
  constructor
  · rintro ⟨f, rfl, h0, he⟩
    exact ⟨f k, ⟨f, rfl, h0, fun i hi => he i (Nat.lt_succ_of_lt hi)⟩,
      he k (Nat.lt_succ_self k)⟩
  · rintro ⟨u, ⟨f, rfl, h0, he⟩, hedge⟩
    refine ⟨fun t => if t = k + 1 then v else f t, by simp, ?_, ?_⟩
    · simpa using h0
    · intro i hi
      show DepEdge g (if i = k + 1 then v else f i)
        (if i + 1 = k + 1 then v else f (i + 1))
      rcases Nat.lt_succ_iff_lt_or_eq.mp hi with hik | rfl
      · rw [if_neg (show ¬ i = k + 1 by omega),
          if_neg (show ¬ i + 1 = k + 1 by omega)]
        exact he i hik
      · rw [if_neg (show ¬ i = i + 1 by omega), if_pos rfl]
        exact hedge

theorem walkEnd_lt (g : List Node) (k : Nat) (v : Nat)
    (h : WalkEnd g k v) : v < g.length := by
  cases k with
  | zero => exact (walkEnd_zero g v).mp h
  | succ m =>
    obtain ⟨u, -, hv, -⟩ := (walkEnd_succ g m v).mp h
    exact hv

/-! ### Characterization of `build_child_map` -/

theorem build_child_map_step_length (cm : List (List Int)) (p c : Int) :
    (build_child_map_step cm p c).length = cm.length := by
  unfold build_child_map_step
  exact List.length_set ..

theorem inner_fold_length (c : Int) :
    ∀ (deps : List Int) (cm : List (List Int)),
    (deps.foldl (fun cm' parent => build_child_map_step cm' parent c)
      cm).length = cm.length
  | [], cm => rfl
  | p :: rest, cm => by
    rw [List.foldl_cons]
    rw [inner_fold_length c rest _]
    exact build_child_map_step_length ..

theorem mem_inner_fold (c : Int) (n : Nat) :
    ∀ (deps : List Int) (cm : List (List Int)) (w : Nat) (x : Int),
    cm.length = n →
    (∀ p ∈ deps, 0 ≤ p ∧ p < (n : Int)) → w < n →
    (x ∈ (deps.foldl (fun cm' parent => build_child_map_step cm' parent c)
        cm).getD w [] ↔
      x ∈ cm.getD w [] ∨ (x = c ∧ (w : Int) ∈ deps))
  | [], cm, w, x, _, _, _ => by simp
  | p :: rest, cm, w, x, hcm, hd, hw => by
    rw [List.foldl_cons]
    obtain ⟨hp0, hpl⟩ := hd p (List.mem_cons_self ..)
    have hptoNat : p.toNat < cm.length := by omega
    have hlen : (build_child_map_step cm p c).length = n :=
      (build_child_map_step_length ..).trans hcm
    rw [mem_inner_fold c n rest _ w x hlen
      (fun q hq => hd q (List.mem_cons_of_mem _ hq)) hw]
    unfold build_child_map_step
    rw [getD_set_cases]
    by_cases hpw : p.toNat = w
    · rw [if_pos ⟨hpw, hptoNat⟩, hpw]
      have hpw' : p = (w : Int) := by omega
      constructor
      · rintro (h | ⟨rfl, hwr⟩)
        · rcases List.mem_append.mp h with h | h
          · exact Or.inl h
          · rcases List.mem_singleton.mp h with rfl
            exact Or.inr ⟨rfl, by rw [← hpw']; exact List.mem_cons_self ..⟩
        · exact Or.inr ⟨rfl, List.mem_cons_of_mem _ hwr⟩
      · rintro (h | ⟨rfl, hwr⟩)
        · exact Or.inl (List.mem_append.mpr (Or.inl h))
        · exact Or.inl (List.mem_append.mpr (Or.inr (List.mem_singleton.mpr
            rfl)))
    · rw [if_neg (by rintro ⟨h, -⟩; exact hpw h)]
      constructor
      · rintro (h | ⟨rfl, hwr⟩)
        · exact Or.inl h
        · exact Or.inr ⟨rfl, List.mem_cons_of_mem _ hwr⟩
      · rintro (h | ⟨rfl, hwr⟩)
        · exact Or.inl h
        · rcases List.mem_cons.mp hwr with heq | hwr
          · exact absurd (by omega : p.toNat = w) hpw
          · exact Or.inr ⟨rfl, hwr⟩

theorem mem_outer_fold (n : Nat) :
    ∀ (nodes : List Node) (cm : List (List Int)) (w : Nat) (x : Int),
    cm.length = n →
    (∀ node ∈ nodes, ∀ p ∈ node.depends_on, 0 ≤ p ∧ p < (n : Int)) →
    w < n →
    (x ∈ (nodes.foldl
        (fun cm' node => node.depends_on.foldl
          (fun cm2 parent => build_child_map_step cm2 parent node.node_id)
          cm') cm).getD w [] ↔
      x ∈ cm.getD w [] ∨
        ∃ node ∈ nodes, x = node.node_id ∧ (w : Int) ∈ node.depends_on)
  | [], cm, w, x, _, _, _ => by simp
  | node :: rest, cm, w, x, hcm, hv, hw => by
    rw [List.foldl_cons]
    have hlen : (node.depends_on.foldl
        (fun cm2 parent => build_child_map_step cm2 parent node.node_id)
        cm).length = n := (inner_fold_length ..).trans hcm
    rw [mem_outer_fold n rest _ w x hlen
      (fun nd hnd p hp => hv nd (List.mem_cons_of_mem _ hnd) p hp) hw]
    rw [mem_inner_fold node.node_id n node.depends_on cm w x hcm
      (hv node (List.mem_cons_self ..)) hw]
    constructor
    · rintro ((h | ⟨rfl, hwr⟩) | ⟨nd, hnd, rfl, hwr⟩)
      · exact Or.inl h
      · exact Or.inr ⟨node, List.mem_cons_self .., rfl, hwr⟩
      · exact Or.inr ⟨nd, List.mem_cons_of_mem _ hnd, rfl, hwr⟩
    · rintro (h | ⟨nd, hnd, rfl, hwr⟩)
      · exact Or.inl (Or.inl h)
      · rcases List.mem_cons.mp hnd with rfl | hnd
        · exact Or.inl (Or.inr ⟨rfl, hwr⟩)
        · exact Or.inr ⟨nd, hnd, rfl, hwr⟩

theorem build_child_map_length (g : List Node) :
    (build_child_map g).length = g.length := by
  unfold build_child_map
  have : ∀ (nodes : List Node) (cm : List (List Int)),
      (nodes.foldl
        (fun cm' node => node.depends_on.foldl
          (fun cm2 parent => build_child_map_step cm2 parent node.node_id)
          cm') cm).length = cm.length := by
    intro nodes
    induction nodes with
    | nil => intro cm; rfl
    | cons node rest ih =>
      intro cm
      rw [List.foldl_cons, ih]
      exact inner_fold_length ..
  rw [this g _]
  exact List.length_map ..

theorem getD_mem_of_lt2 (l : List Node) (k : Nat) (h : k < l.length) :
    l.getD k default ∈ l := by
  rw [getD_eq_get l k default h]
  exact List.get_mem l k h

/-- Membership characterization of the child map of a valid graph:
`x ∈ child_map[w]` iff `x` is the id of a node depending on `w`. -/
theorem mem_child_map (g : List Node) (hv : ValidGraph g) (w : Nat)
    (x : Int) (hw : w < g.length) :
    x ∈ (build_child_map g).getD w [] ↔
      ∃ v : Nat, x = (v : Int) ∧ DepEdge g w v := by
  unfold build_child_map
  have hinit : ∀ w' : Nat, w' < g.length →
      ((g.map fun _ => ([] : List Int)).getD w' []) = [] := by
    intro w' hw'
    rw [getD_map_of_lt _ g w' [] default hw']
  rw [mem_outer_fold g.length g _ w x (List.length_map ..)
    (fun nd hnd p hp => by
      obtain ⟨⟨i, hi⟩, rfl⟩ := List.mem_iff_get.mp hnd
      rw [← getD_eq_get g i default hi] at hp
      exact hv.2 i hi p hp)
    hw]
  rw [hinit w hw]
  simp only [List.not_mem_nil, false_or]
  constructor
  · rintro ⟨nd, hnd, rfl, hwr⟩
    obtain ⟨⟨i, hi⟩, rfl⟩ := List.mem_iff_get.mp hnd
    rw [← getD_eq_get g i default hi] at hwr ⊢
    exact ⟨i, hv.1 i hi, hi, hwr⟩

  · rintro ⟨v, rfl, hvl, hwr⟩
    refine ⟨g.getD v default, getD_mem_of_lt2 g v hvl, (hv.1 v hvl).symm, hwr⟩

end Graphgen

namespace Graphgen

/-- The state of the wave loop after `j` iterations. -/
def level_state (g : List Node) (j : Nat) : List Node × List Int :=
  (wave_step (build_child_map g))^[j]
    (g.map fun nd => { nd with level := 0 }, g.map fun nd => nd.node_id)

theorem assign_eq_state (g : List Node) :
    assign_level_to_nodes_inplace g =
      if (level_state g (g.length + 1)).2.isEmpty
      then .ok (level_state g (g.length + 1)).1
      else .error (level_state g (g.length + 1)).2 := rfl

theorem write_children_length (lvl : Int) :
    ∀ (children : List Int) (g : List Node),
    (write_children lvl children g).length = g.length
  | [], _ => rfl
  | c :: rest, g => by
    show (write_children lvl rest (set_level g c (lvl + 1))).length = g.length
    rw [write_children_length lvl rest _]
    unfold set_level
    exact List.length_set ..

theorem write_children_getD_miss (lvl : Int) :
    ∀ (children : List Int) (g : List Node) (x : Nat),
    (∀ c ∈ children, c.toNat ≠ x) →
    (write_children lvl children g).getD x default = g.getD x default
  | [], _, _, _ => rfl
  | c :: rest, g, x, h => by
    show (write_children lvl rest (set_level g c (lvl + 1))).getD x default = _
    rw [write_children_getD_miss lvl rest _ x
      (fun c' hc' => h c' (List.mem_cons_of_mem _ hc'))]
    unfold set_level
    exact getD_set_ne _ _ _ _ _ (h c (List.mem_cons_self ..))

theorem write_children_getD_hit (lvl : Int) :
    ∀ (children : List Int) (g : List Node) (x : Nat),
    (∃ c ∈ children, c.toNat = x) → x < g.length →
    ((write_children lvl children g).getD x default).level = lvl + 1
  | [], _, x, hex, _ => by
    obtain ⟨c, hc, -⟩ := hex
    exact absurd hc (List.not_mem_nil c)
  | c :: rest, g, x, hex, hx => by
    show ((write_children lvl rest (set_level g c (lvl + 1))).getD x
      default).level = lvl + 1
    by_cases hrest : ∃ c' ∈ rest, c'.toNat = x
    · exact write_children_getD_hit lvl rest _ x hrest
        (by unfold set_level; rw [List.length_set]; exact hx)
    · have hc : c.toNat = x := by
        obtain ⟨c', hc', hceq⟩ := hex
        rcases List.mem_cons.mp hc' with rfl | hmem
        · exact hceq
        · exact absurd ⟨c', hmem, hceq⟩ hrest
      rw [write_children_getD_miss lvl rest _ x
        (fun c' hc' hceq => hrest ⟨c', hc', hceq⟩)]
      unfold set_level
      rw [hc, getD_set_self _ x _ _ hx]

theorem process_wave_tainted (cm : List (List Int)) :
    ∀ (wave : List Int) (g : List Node) (t : List Int),
    (process_wave cm wave g t).2 =
      t ++ wave.flatMap (fun u => cm.getD u.toNat [])
  | [], _, t => by simp [process_wave]
  | u :: rest, g, t => by
    show (process_wave cm rest _ (t ++ cm.getD u.toNat [])).2 = _
    rw [process_wave_tainted cm rest _ _]
    rw [List.flatMap_cons, List.append_assoc]

theorem process_wave_length (cm : List (List Int)) :
    ∀ (wave : List Int) (g : List Node) (t : List Int),
    (process_wave cm wave g t).1.length = g.length
  | [], _, _ => rfl
  | u :: rest, g, t => by
    show (process_wave cm rest
      (write_children (g.getD u.toNat default).level (cm.getD u.toNat []) g)
      _).1.length = _
    rw [process_wave_length cm rest _ _, write_children_length]

theorem process_wave_getD_miss (cm : List (List Int)) :
    ∀ (wave : List Int) (g : List Node) (t : List Int) (x : Nat),
    (∀ u ∈ wave, ∀ c ∈ cm.getD u.toNat [], c.toNat ≠ x) →
    (process_wave cm wave g t).1.getD x default = g.getD x default
  | [], _, _, _, _ => rfl
  | u :: rest, g, t, x, h => by
    show (process_wave cm rest
      (write_children (g.getD u.toNat default).level (cm.getD u.toNat []) g)
      _).1.getD x default = _
    rw [process_wave_getD_miss cm rest _ _ x
      (fun u' hu' => h u' (List.mem_cons_of_mem _ hu'))]
    exact write_children_getD_miss _ _ _ x (h u (List.mem_cons_self ..))

theorem process_wave_getD_value (cm : List (List Int)) (P : Nat → Prop)
    (x : Nat) (val : Int) :
    ∀ (wave : List Int) (g : List Node) (t : List Int),
    (∀ u ∈ wave, ∀ c ∈ cm.getD u.toNat [], ¬ P c.toNat) →
    (∀ u ∈ wave, (x : Int) ∈ cm.getD u.toNat [] →
      P u.toNat ∧ (g.getD u.toNat default).level + 1 = val) →
    (∀ u ∈ wave, ∀ c ∈ cm.getD u.toNat [], 0 ≤ c) →
    x < g.length →
    ((g.getD x default).level = val ∨
      ∃ u ∈ wave, (x : Int) ∈ cm.getD u.toNat []) →
    ((process_wave cm wave g t).1.getD x default).level = val
  | [], g, t, _, _, _, _, hstart => by
    rcases hstart with h | ⟨u, hu, -⟩
    · exact h
    · exact absurd hu (List.not_mem_nil u)
  | u0 :: rest, g, t, ha, hb, hnn, hx, hstart => by
    show ((process_wave cm rest
      (write_children (g.getD u0.toNat default).level (cm.getD u0.toNat []) g)
      (t ++ cm.getD u0.toNat [])).1.getD x default).level = val
    have hlen1 : (write_children (g.getD u0.toNat default).level
        (cm.getD u0.toNat []) g).length = g.length := write_children_length ..
    have hg1u : ∀ u ∈ rest, (x : Int) ∈ cm.getD u.toNat [] →
        (write_children (g.getD u0.toNat default).level
          (cm.getD u0.toNat []) g).getD u.toNat default =
        g.getD u.toNat default := by
      intro u hu hw
      obtain ⟨hPu, -⟩ := hb u (List.mem_cons_of_mem _ hu) hw
      exact write_children_getD_miss _ _ _ _
        (fun c hc hceq =>
          (ha u0 (List.mem_cons_self ..) c hc) (hceq ▸ hPu))
    apply process_wave_getD_value cm P x val rest _ _
      (fun u hu => ha u (List.mem_cons_of_mem _ hu))
      (fun u hu hw => by
        obtain ⟨hPu, hval⟩ := hb u (List.mem_cons_of_mem _ hu) hw
        refine ⟨hPu, ?_⟩
        rw [hg1u u hu hw]
        exact hval)
      (fun u hu => hnn u (List.mem_cons_of_mem _ hu))
      (by rw [hlen1]; exact hx)
    by_cases hw0 : (x : Int) ∈ cm.getD u0.toNat []
    · left
      obtain ⟨-, hval⟩ := hb u0 (List.mem_cons_self ..) hw0
      have hlev : ((write_children (g.getD u0.toNat default).level
          (cm.getD u0.toNat []) g).getD x default).level =
          (g.getD u0.toNat default).level + 1 :=
        write_children_getD_hit _ _ _ x
          ⟨(x : Int), hw0, Int.toNat_natCast x⟩ hx
      rw [hlev, hval]
    · rcases hstart with hlev | ⟨u, hu, hw⟩
      · left
        have hmiss : (write_children (g.getD u0.toNat default).level
            (cm.getD u0.toNat []) g).getD x default = g.getD x default := by
          apply write_children_getD_miss
          intro c hc hceq
          have h0c := hnn u0 (List.mem_cons_self ..) c hc
          have : c = (x : Int) := by omega
          rw [this] at hc
          exact hw0 hc
        rw [hmiss]
        exact hlev
      · right
        rcases List.mem_cons.mp hu with rfl | hu
        · exact absurd hw hw0
        · exact ⟨u, hu, hw⟩

end Graphgen

namespace Graphgen

theorem level_state_succ (g : List Node) (j : Nat) :
    level_state g (j + 1) =
      wave_step (build_child_map g) (level_state g j) :=
  Function.iterate_succ_apply' ..

theorem wave_step_eq (cm : List (List Int)) (st : List Node × List Int) :
    wave_step cm st =
      ((process_wave cm st.2 st.1 []).1,
       (process_wave cm st.2 st.1 []).2.dedup) := by
  unfold wave_step
  cases hpw : process_wave cm st.2 st.1 []
  rfl


theorem level_state_fst_length (g : List Node) :
    ∀ j, (level_state g j).1.length = g.length
  | 0 => List.length_map ..
  | j + 1 => by
    rw [level_state_succ, wave_step_eq]
    show (process_wave _ _ _ []).1.length = _
    rw [process_wave_length]
    exact level_state_fst_length g j

/-- After `j` wave iterations, the unassigned set consists exactly of the
ids reachable by a dependency walk of length `j`. -/
theorem wave_membership (g : List Node) (hv : ValidGraph g) :
    ∀ (j : Nat) (x : Int),
    x ∈ (level_state g j).2 ↔ ∃ v : Nat, x = (v : Int) ∧ WalkEnd g j v := by
  intro j
  induction j with
  | zero =>
    intro x
    show x ∈ g.map (fun nd => nd.node_id) ↔ _
    rw [List.mem_map]
    constructor
    · rintro ⟨nd, hnd, rfl⟩
      obtain ⟨⟨i, hi⟩, rfl⟩ := List.mem_iff_get.mp hnd
      rw [← getD_eq_get g i default hi]
      exact ⟨i, hv.1 i hi, (walkEnd_zero g i).mpr hi⟩
    · rintro ⟨v, rfl, hw⟩
      have hvl := (walkEnd_zero g v).mp hw
      exact ⟨g.getD v default, getD_mem_of_lt2 g v hvl, hv.1 v hvl⟩
  | succ j ih =>
    intro x
    rw [show (level_state g (j + 1)).2 =
      ((process_wave (build_child_map g) (level_state g j).2
        (level_state g j).1 []).2).dedup from by
      rw [level_state_succ, wave_step_eq]]
    rw [List.mem_dedup, process_wave_tainted, List.nil_append,
      List.mem_flatMap]
    constructor
    · rintro ⟨u, hu, hx⟩
      obtain ⟨u', rfl, hwu⟩ := (ih u).mp hu
      rw [Int.toNat_natCast] at hx
      have hul : u' < g.length := walkEnd_lt g j u' hwu
      obtain ⟨v, rfl, hedge⟩ := (mem_child_map g hv u' x hul).mp hx
      exact ⟨v, rfl, (walkEnd_succ g j v).mpr ⟨u', hwu, hedge⟩⟩
    · rintro ⟨v, rfl, hw⟩
      obtain ⟨u', hwu, hedge⟩ := (walkEnd_succ g j v).mp hw
      have hul : u' < g.length := walkEnd_lt g j u' hwu
      refine ⟨(u' : Int), (ih _).mpr ⟨u', rfl, hwu⟩, ?_⟩
      rw [Int.toNat_natCast]
      exact (mem_child_map g hv u' _ hul).mpr ⟨v, rfl, hedge⟩

end Graphgen

namespace Graphgen

theorem walkFromTo_refl (g : List Node) (u : Nat) : WalkFromTo g 0 u u :=
  ⟨fun _ => u, rfl, rfl, fun i hi => absurd hi (Nat.not_lt_zero i)⟩

theorem walkFromTo_trans (g : List Node) (a b x y z : Nat)
    (h1 : WalkFromTo g a x y) (h2 : WalkFromTo g b y z) :
    WalkFromTo g (a + b) x z := by
  obtain ⟨f1, hf10, hf1a, he1⟩ := h1
  obtain ⟨f2, hf20, hf2b, he2⟩ := h2
  refine ⟨fun t => if t ≤ a then f1 t else f2 (t - a), ?_, ?_, ?_⟩
  · show (if 0 ≤ a then f1 0 else f2 (0 - a)) = x
    rw [if_pos (Nat.zero_le a)]
    exact hf10
  · show (if a + b ≤ a then f1 (a + b) else f2 (a + b - a)) = z
    by_cases hb : b = 0
    · subst hb
      rw [if_pos (by omega)]
      rw [show a + 0 = a from rfl, hf1a, ← hf20]
      exact hf2b
    · rw [if_neg (by omega), show a + b - a = b from by omega]
      exact hf2b
  · intro i hi
    show DepEdge g (if i ≤ a then f1 i else f2 (i - a))
      (if i + 1 ≤ a then f1 (i + 1) else f2 (i + 1 - a))
    by_cases hia : i + 1 ≤ a
    · rw [if_pos (by omega), if_pos hia]
      exact he1 i (by omega)
    · by_cases hia2 : i ≤ a
      · have hieq : i = a := by omega
        rw [if_pos hia2, if_neg hia, hieq,
          show a + 1 - a = 1 from by omega]
        have hb : 0 < b := by omega
        have h := he2 0 hb
        rw [hf20, ← hf1a] at h
        rw [show (0 : Nat) + 1 = 1 from rfl] at h
        exact h
      · rw [if_neg hia2, if_neg hia,
          show i + 1 - a = (i - a) + 1 from by omega]
        exact he2 (i - a) (by omega)

theorem walkEnd_of_from (g : List Node) (a b x y : Nat)
    (h1 : WalkEnd g a x) (h2 : WalkFromTo g b x y) : WalkEnd g (a + b) y := by
  obtain ⟨f1, hf1a, hf10, he1⟩ := h1
  obtain ⟨f2, hf20, hf2b, he2⟩ := h2
  refine ⟨fun t => if t ≤ a then f1 t else f2 (t - a), ?_, ?_, ?_⟩
  · show (if a + b ≤ a then f1 (a + b) else f2 (a + b - a)) = y
    by_cases hb : b = 0
    · subst hb
      rw [if_pos (by omega)]
      rw [show a + 0 = a from rfl, hf1a, ← hf20]
      exact hf2b
    · rw [if_neg (by omega), show a + b - a = b from by omega]
      exact hf2b
  · show (if 0 ≤ a then f1 0 else f2 (0 - a)) < g.length
    rw [if_pos (Nat.zero_le a)]
    exact hf10
  · intro i hi
    show DepEdge g (if i ≤ a then f1 i else f2 (i - a))
      (if i + 1 ≤ a then f1 (i + 1) else f2 (i + 1 - a))
    by_cases hia : i + 1 ≤ a
    · rw [if_pos (by omega), if_pos hia]
      exact he1 i (by omega)
    · by_cases hia2 : i ≤ a
      · have hieq : i = a := by omega
        rw [if_pos hia2, if_neg hia, hieq,
          show a + 1 - a = 1 from by omega]
        have hb : 0 < b := by omega
        have h := he2 0 hb
        rw [hf20, ← hf1a] at h
        rw [show (0 : Nat) + 1 = 1 from rfl] at h
        exact h
      · rw [if_neg hia2, if_neg hia,
          show i + 1 - a = (i - a) + 1 from by omega]
        exact he2 (i - a) (by omega)

theorem cycle_pow (g : List Node) (c u : Nat) (hc : WalkFromTo g c u u) :
    ∀ q, WalkFromTo g (q * c) u u
  | 0 => by
    rw [Nat.zero_mul]
    exact walkFromTo_refl g u
  | q + 1 => by
    have h := walkFromTo_trans g (q * c) c u u u (cycle_pow g c u hc q) hc
    rwa [show q * c + c = (q + 1) * c from by ring] at h

theorem cycle_suffix (g : List Node) (c u : Nat) (hc0 : 0 < c)
    (hc : WalkFromTo g c u u) : ∀ r, r ≤ c → WalkEnd g r u := by
  obtain ⟨w, hw0, hwc, hedge⟩ := hc
  have hun : u < g.length := by
    have h := hedge (c - 1) (by omega)
    rw [show c - 1 + 1 = c from by omega, hwc] at h
    exact h.1
  intro r hr
  refine ⟨fun i => w (c - r + i), ?_, ?_, ?_⟩
  · show w (c - r + r) = u
    rw [show c - r + r = c from by omega, hwc]
  · show w (c - r + 0) < g.length
    rw [Nat.add_zero]
    by_cases hrc : r = c
    · subst hrc
      rw [Nat.sub_self, hw0]
      exact hun
    · have h := hedge (c - r - 1) (by omega)
      rw [show c - r - 1 + 1 = c - r from by omega] at h
      exact h.1
  · intro i hi
    show DepEdge g (w (c - r + i)) (w (c - r + (i + 1)))
    rw [show c - r + (i + 1) = (c - r + i) + 1 from by omega]
    exact hedge (c - r + i) (by omega)

theorem cycle_walkEnd_any (g : List Node) (u : Nat) (hu : OnCycle g u) :
    ∀ m, WalkEnd g m u := by
  obtain ⟨c, hc0, hc⟩ := hu
  intro m
  have hr : m % c ≤ c := le_of_lt (Nat.mod_lt m hc0)
  have h1 := cycle_suffix g c u hc0 hc (m % c) hr
  have h2 := cycle_pow g c u hc (m / c)
  have h3 := walkEnd_of_from g (m % c) (m / c * c) u u h1 h2
  rwa [show m % c + m / c * c = m from by
    rw [Nat.mul_comm (m / c) c]
    exact Nat.mod_add_div m c] at h3

theorem exists_repeat (n : Nat) (f : Nat → Nat) (hf : ∀ i, i ≤ n → f i < n) :
    ∃ i j, i < j ∧ j ≤ n ∧ f i = f j := by
  have hcard : (Finset.range n).card < (Finset.range (n + 1)).card := by simp
  have hmaps : ∀ a ∈ Finset.range (n + 1), f a ∈ Finset.range n := by
    intro a ha
    rw [Finset.mem_range] at ha ⊢
    exact hf a (by omega)
  obtain ⟨x, hx, y, hy, hxy, hfxy⟩ :=
    Finset.exists_ne_map_eq_of_card_lt_of_maps_to hcard hmaps
  rw [Finset.mem_range] at hx hy
  rcases Nat.lt_or_ge x y with h | h
  · exact ⟨x, y, h, by omega, hfxy⟩
  · have hyx : y < x := by omega
    exact ⟨y, x, hyx, by omega, hfxy.symm⟩

theorem cycle_of_walk_repeat (g : List Node) (f : Nat → Nat) (k : Nat)
    (he : ∀ i, i < k → DepEdge g (f i) (f (i + 1)))
    (i j : Nat) (hij : i < j) (hjk : j ≤ k) (hrep : f i = f j) :
    OnCycle g (f i) := by
  refine ⟨j - i, by omega, fun t => f (i + t), rfl, ?_, ?_⟩
  · show f (i + (j - i)) = f i
    rw [show i + (j - i) = j from by omega, hrep]
  · intro t ht
    show DepEdge g (f (i + t)) (f (i + (t + 1)))
    rw [show i + (t + 1) = (i + t) + 1 from by omega]
    exact he (i + t) (by omega)

theorem acyclic_walkEnd_bound (g : List Node) (hacy : ¬ HasCycle g)
    (k v : Nat) (h : WalkEnd g k v) : k < g.length := by
  by_contra hk
  push_neg at hk
  obtain ⟨f, hfk, hf0, he⟩ := h
  have hall : ∀ i, i ≤ g.length → f i < g.length := by
    intro i hi
    cases i with
    | zero => exact hf0
    | succ m => exact (he m (by omega)).1
  obtain ⟨i, j, hij, hjn, hrep⟩ := exists_repeat g.length f hall
  exact hacy ⟨f i, cycle_of_walk_repeat g f k he i j hij (by omega) hrep⟩

theorem walkFromTo_shorten (g : List Node) (u v : Nat) (hu : u < g.length) :
    ∀ (k : Nat), WalkFromTo g k u v →
    ∃ q, q ≤ g.length ∧ WalkFromTo g q u v := by
  intro k
  induction k using Nat.strong_induction_on with
  | _ k ih =>
    intro hw
    by_cases hk : k ≤ g.length
    · exact ⟨k, hk, hw⟩
    · push_neg at hk
      obtain ⟨f, hf0, hfk, he⟩ := hw
      have hall : ∀ i, i ≤ g.length → f i < g.length := by
        intro i hi
        cases i with
        | zero => rw [hf0]; exact hu
        | succ m => exact (he m (by omega)).1
      obtain ⟨i, j, hij, hjn, hrep⟩ := exists_repeat g.length f hall
      have hcut : WalkFromTo g (k - (j - i)) u v := by
        refine ⟨fun t => if t ≤ i then f t else f (t + (j - i)), ?_, ?_, ?_⟩
        · show (if 0 ≤ i then f 0 else f (0 + (j - i))) = u
          rw [if_pos (Nat.zero_le i)]
          exact hf0
        · show (if k - (j - i) ≤ i then f (k - (j - i))
              else f (k - (j - i) + (j - i))) = v
          rw [if_neg (by omega), show k - (j - i) + (j - i) = k from by omega]
          exact hfk
        · intro t ht
          show DepEdge g (if t ≤ i then f t else f (t + (j - i)))
            (if t + 1 ≤ i then f (t + 1) else f (t + 1 + (j - i)))
          by_cases h1 : t + 1 ≤ i
          · rw [if_pos (by omega), if_pos h1]
            exact he t (by omega)
          · by_cases h2 : t ≤ i
            · rw [if_pos h2, if_neg h1, show t = i from by omega,
                show i + 1 + (j - i) = j + 1 from by omega, hrep]
              exact he j (by omega)
            · rw [if_neg h2, if_neg h1,
                show t + 1 + (j - i) = (t + (j - i)) + 1 from by omega]
              exact he (t + (j - i)) (by omega)
      exact ih (k - (j - i)) (by omega) hcut

theorem onCycle_lt (g : List Node) (u : Nat) (h : OnCycle g u) :
    u < g.length := by
  obtain ⟨c, hc0, w, hw0, hwc, hedge⟩ := h
  have h1 := hedge (c - 1) (by omega)
  rw [show c - 1 + 1 = c from by omega, hwc] at h1
  exact h1.1

/-- The ids still unassigned after `n + 1` waves are exactly the nodes on
or downstream of a dependency cycle. -/
theorem cycleDownstream_iff_walkEnd (g : List Node) (v : Nat) :
    CycleDownstream g v ↔ WalkEnd g (g.length + 1) v := by
  constructor
  · rintro ⟨u, hcyc, p, hp⟩
    have hu : u < g.length := onCycle_lt g u hcyc
    obtain ⟨q, hq, hpq⟩ := walkFromTo_shorten g u v hu p hp
    have hend : WalkEnd g (g.length + 1 - q) u := cycle_walkEnd_any g u hcyc _
    have h := walkEnd_of_from g (g.length + 1 - q) q u v hend hpq
    rwa [show g.length + 1 - q + q = g.length + 1 from by omega] at h
  · rintro ⟨f, hfk, hf0, he⟩
    have hall : ∀ i, i ≤ g.length → f i < g.length := by
      intro i hi
      cases i with
      | zero => exact hf0
      | succ m => exact (he m (by omega)).1
    obtain ⟨i, j, hij, hjn, hrep⟩ := exists_repeat g.length f hall
    refine ⟨f i,
      cycle_of_walk_repeat g f (g.length + 1) he i j hij (by omega) hrep,
      g.length + 1 - j, fun t => f (j + t), ?_, ?_, ?_⟩
    · show f (j + 0) = f i
      rw [Nat.add_zero, hrep]
    · show f (j + (g.length + 1 - j)) = v
      rw [show j + (g.length + 1 - j) = g.length + 1 from by omega]
      exact hfk
    · intro t ht
      show DepEdge g (f (j + t)) (f (j + (t + 1)))
      rw [show j + (t + 1) = (j + t) + 1 from by omega]
      exact he (j + t) (by omega)

end Graphgen

namespace Graphgen

/-- Core correctness of the wave propagation on an acyclic valid graph:
once the wave count reaches the longest-walk depth `k` of `v`, the level
of `v` equals `k` and is never changed again. -/
theorem level_state_eq_longest (g : List Node) (hv : ValidGraph g)
    (hacy : ¬ HasCycle g) :
    ∀ (k : Nat), ∀ (v : Nat), WalkEnd g k v → (∀ m, WalkEnd g m v → m ≤ k) →
    ∀ (j : Nat), k ≤ j →
    (((level_state g j).1).getD v default).level = (k : Int) := by
  intro k
  induction k using Nat.strong_induction_on with
  | _ k ihk =>
    intro v hwk hmax j hjk
    induction j with
    | zero =>
      have hk0 : k = 0 := by omega
      subst hk0
      have hvl : v < g.length := walkEnd_lt g 0 v hwk
      show ((g.map fun nd : Node => { nd with level := 0 }).getD v
        default).level = _
      rw [getD_map_of_lt _ g v default default hvl]
      simp
    | succ j ihj =>
      by_cases hjk2 : k ≤ j
      · have hprev := ihj hjk2
        rw [level_state_succ, wave_step_eq]
        show ((process_wave (build_child_map g) (level_state g j).2
          (level_state g j).1 []).1.getD v default).level = _
        rw [process_wave_getD_miss]
        · exact hprev
        · intro u hu c hc hcx
          obtain ⟨u', rfl, hwu⟩ := (wave_membership g hv j u).mp hu
          rw [Int.toNat_natCast] at hc
          have hul : u' < g.length := walkEnd_lt g j u' hwu
          obtain ⟨w, hweq, hedge⟩ := (mem_child_map g hv u' c hul).mp hc
          have hwv : w = v := by omega
          subst hwv
          have hwalk : WalkEnd g (j + 1) w :=
            (walkEnd_succ g j w).mpr ⟨u', hwu, hedge⟩
          have := hmax (j + 1) hwalk
          omega
      · have hkj : k = j + 1 := by omega
        subst hkj
        rw [level_state_succ, wave_step_eq]
        show ((process_wave (build_child_map g) (level_state g j).2
          (level_state g j).1 []).1.getD v default).level = _
        have hvl : v < g.length := walkEnd_lt g _ v hwk
        apply process_wave_getD_value (build_child_map g)
          (fun x => ∀ m, WalkEnd g m x → m ≤ j) v (((j + 1 : Nat)) : Int)
        · intro u hu c hc
          obtain ⟨u', rfl, hwu⟩ := (wave_membership g hv j u).mp hu
          rw [Int.toNat_natCast] at hc
          have hul : u' < g.length := walkEnd_lt g j u' hwu
          obtain ⟨w, rfl, hedge⟩ := (mem_child_map g hv u' c hul).mp hc
          rw [Int.toNat_natCast]
          intro hPw
          have hwalk : WalkEnd g (j + 1) w :=
            (walkEnd_succ g j w).mpr ⟨u', hwu, hedge⟩
          have := hPw (j + 1) hwalk
          omega
        · intro u hu hvc
          obtain ⟨u', rfl, hwu⟩ := (wave_membership g hv j u).mp hu
          rw [Int.toNat_natCast] at hvc ⊢
          have hul : u' < g.length := walkEnd_lt g j u' hwu
          obtain ⟨w, hweq, hedge⟩ := (mem_child_map g hv u' (v : Int) hul).mp hvc
          have hwv : w = v := by omega
          subst hwv
          have hPu : ∀ m, WalkEnd g m u' → m ≤ j := by
            intro m hm
            have hwalk : WalkEnd g (m + 1) w :=
              (walkEnd_succ g m w).mpr ⟨u', hm, hedge⟩
            have := hmax (m + 1) hwalk
            omega
          refine ⟨hPu, ?_⟩
          have hlev := ihk j (by omega) u' hwu hPu j le_rfl
          rw [hlev]
          push_cast
          ring
        · intro u hu c hc
          obtain ⟨u', rfl, hwu⟩ := (wave_membership g hv j u).mp hu
          rw [Int.toNat_natCast] at hc
          have hul : u' < g.length := walkEnd_lt g j u' hwu
          obtain ⟨w, rfl, -⟩ := (mem_child_map g hv u' c hul).mp hc
          exact Int.ofNat_nonneg w
        · rw [level_state_fst_length]
          exact hvl
        · right
          obtain ⟨u', hwu, hedge⟩ := (walkEnd_succ g j v).mp hwk
          have hul : u' < g.length := walkEnd_lt g j u' hwu
          refine ⟨(u' : Int), (wave_membership g hv j _).mpr ⟨u', rfl, hwu⟩, ?_⟩
          rw [Int.toNat_natCast]
          exact (mem_child_map g hv u' (v : Int) hul).mpr ⟨v, rfl, hedge⟩

theorem final_wave_empty (g : List Node) (hv : ValidGraph g)
    (hacy : ¬ HasCycle g) : (level_state g (g.length + 1)).2 = [] := by
  by_contra hne
  obtain ⟨x, hx⟩ := List.exists_mem_of_ne_nil _ hne
  obtain ⟨v, rfl, hw⟩ := (wave_membership g hv _ x).mp hx
  have := acyclic_walkEnd_bound g hacy _ v hw
  omega

theorem assign_ok_of_acyclic (g : List Node) (hv : ValidGraph g)
    (hacy : ¬ HasCycle g) :
    assign_level_to_nodes_inplace g =
      .ok (level_state g (g.length + 1)).1 := by
  rw [assign_eq_state, final_wave_empty g hv hacy]
  rfl

theorem exists_longest (g : List Node) (hacy : ¬ HasCycle g) (v : Nat)
    (hvl : v < g.length) :
    ∃ k, WalkEnd g k v ∧ ∀ m, WalkEnd g m v → m ≤ k := by
  classical
  have h0 : WalkEnd g 0 v := (walkEnd_zero g v).mpr hvl
  refine ⟨Nat.findGreatest (fun m => WalkEnd g m v) g.length,
    @Nat.findGreatest_spec 0 (fun m => WalkEnd g m v) _ g.length
      (Nat.zero_le _) h0, ?_⟩
  intro m hm
  exact Nat.le_findGreatest
    (le_of_lt (acyclic_walkEnd_bound g hacy m v hm)) hm

end Graphgen

namespace Graphgen

instance (g : List Node) (u v : Nat) : Decidable (DepEdge g u v) := by
  unfold DepEdge
  infer_instance

instance (g : List Node) : Decidable (ValidGraph g) := by
  unfold ValidGraph
  infer_instance

/-- C1: on a valid graph whose dependency edges contain a cycle, the wave
loop fails to empty within `n + 1` waves and `assign_level_to_nodes_inplace`
raises with exactly the ids lying on a cycle or downstream of one. -/
theorem claim_C1_cycle_error_set (g : List Node) (hv : ValidGraph g)
    (hcyc : HasCycle g) :
    ∃ l, assign_level_to_nodes_inplace g = .error l ∧
      ∀ x : Int, x ∈ l ↔ ∃ v : Nat, x = (v : Int) ∧ CycleDownstream g v := by
  obtain ⟨u, hu⟩ := hcyc
  have hmem : (u : Int) ∈ (level_state g (g.length + 1)).2 :=
    (wave_membership g hv _ _).mpr ⟨u, rfl,
      (cycleDownstream_iff_walkEnd g u).mp ⟨u, hu, 0, walkFromTo_refl g u⟩⟩
  have hne : ¬ ((level_state g (g.length + 1)).2.isEmpty = true) := by
    intro h
    rw [List.isEmpty_iff.mp h] at hmem
    exact absurd hmem (List.not_mem_nil _)
  refine ⟨(level_state g (g.length + 1)).2, ?_, ?_⟩
  · rw [assign_eq_state, if_neg hne]
  · intro x
    rw [wave_membership g hv]
    exact exists_congr fun v => and_congr_right fun _ =>
      (cycleDownstream_iff_walkEnd g v).symm

/-- C2: on a valid acyclic graph, the wave loop empties within `n + 1`
waves, `assign_level_to_nodes_inplace` returns normally, and every node
with an empty `depends_on` list keeps level 0. -/
theorem claim_C2_acyclic_terminates (g : List Node) (hv : ValidGraph g)
    (hacy : ¬ HasCycle g) :
    ∃ g', assign_level_to_nodes_inplace g = .ok g' ∧
      ∀ i, i < g.length → (g.getD i default).depends_on = [] →
        ((g'.getD i default)).level = 0 := by
  refine ⟨_, assign_ok_of_acyclic g hv hacy, ?_⟩
  intro i hi hdeps
  have hmax : ∀ m, WalkEnd g m i → m ≤ 0 := by
    intro m hm
    cases m with
    | zero => exact le_rfl
    | succ m' =>
      obtain ⟨u, hwu, hedge⟩ := (walkEnd_succ g m' i).mp hm
      unfold DepEdge at hedge
      rw [hdeps] at hedge
      exact absurd hedge.2 (List.not_mem_nil _)
  have h := level_state_eq_longest g hv hacy 0 i
    ((walkEnd_zero g i).mpr hi) hmax (g.length + 1) (Nat.zero_le _)
  simpa using h

/-- C3 (amended): processing a node overwrites each of its children's
levels to the read parent level plus one, regardless of the child's
current level, and a child written several times in a wave keeps the last
written value; nevertheless, on every valid acyclic graph the resulting
per-node levels do equal the longest-path depth. -/
theorem claim_C3_overwrite_yet_longest_path :
    (∀ (lvl : Int) (children : List Int) (g0 : List Node) (c : Int),
      c ∈ children → c.toNat < g0.length →
      ((write_children lvl children g0).getD c.toNat default).level =
        lvl + 1) ∧
    (∀ g : List Node, ValidGraph g → ¬ HasCycle g →
      ∃ g', assign_level_to_nodes_inplace g = .ok g' ∧
        ∀ v, v < g.length →
          IsLongestWalkLevel g v ((g'.getD v default).level)) := by
  constructor
  · intro lvl children g0 c hc hlen
    exact write_children_getD_hit lvl children g0 c.toNat ⟨c, hc, rfl⟩ hlen
  · intro g hv hacy
    refine ⟨_, assign_ok_of_acyclic g hv hacy, ?_⟩
    intro v hvl
    obtain ⟨k, hk, hkmax⟩ := exists_longest g hacy v hvl
    exact ⟨k, level_state_eq_longest g hv hacy k v hk hkmax
      (g.length + 1) (by
        have := acyclic_walkEnd_bound g hacy k v hk
        omega), hk, hkmax⟩

/-- C3 is refuted as stated: there is no valid acyclic graph on which some
node's computed level differs from its longest-path depth — the
overwrite-style propagation still computes longest-path levels, because in
the last wave that touches a node every writing parent's level has already
reached its own (equal) longest-path depth. -/
theorem claim_C3_counterexample :
    ¬ ∃ g : List Node, ValidGraph g ∧ ¬ HasCycle g ∧
      ∃ g', assign_level_to_nodes_inplace g = .ok g' ∧
        ∃ v, v < g.length ∧
          ¬ IsLongestWalkLevel g v ((g'.getD v default).level) := by
  rintro ⟨g, hv, hacy, g', hok, v, hvl, hnot⟩
  rw [assign_ok_of_acyclic g hv hacy] at hok
  injection hok with hg'
  apply hnot
  obtain ⟨k, hk, hkmax⟩ := exists_longest g hacy v hvl
  refine ⟨k, ?_, hk, hkmax⟩
  rw [← hg']
  exact level_state_eq_longest g hv hacy k v hk hkmax (g.length + 1) (by
    have := acyclic_walkEnd_bound g hacy k v hk
    omega)

end Graphgen

namespace Graphgen

/-- The 3-node dependency cycle scenario: 0 depends_on 1, 1 depends_on 2,
2 depends_on 0. -/
def g3 : List Node := [⟨0, [], [1], 0⟩, ⟨1, [], [2], 0⟩, ⟨2, [], [0], 0⟩]

/-- The linear chain scenario: node 1 depends_on 0, node 2 depends_on 1. -/
def gchain : List Node := [⟨0, [], [], 0⟩, ⟨1, [], [0], 0⟩, ⟨2, [], [1], 0⟩]

theorem g3_hasCycle : HasCycle g3 := by
  refine ⟨0, 3, by norm_num,
    fun t => if t = 0 then 0 else if t = 1 then 2 else if t = 2 then 1
      else 0, rfl, rfl, ?_⟩
  intro i hi
  have hi3 : i < 3 := hi
  interval_cases i
  · show DepEdge g3 0 2
    decide
  · show DepEdge g3 2 1
    decide
  · show DepEdge g3 1 0
    decide

theorem gchain_edge_incr (u v : Nat) (h : DepEdge gchain u v) : u < v := by
  unfold DepEdge at h
  obtain ⟨hvl, hmem⟩ := h
  have hvl3 : v < 3 := hvl
  interval_cases v
  · rw [show (gchain.getD 0 default).depends_on = ([] : List Int)
      from rfl] at hmem
    exact absurd hmem (List.not_mem_nil _)
  · rw [show (gchain.getD 1 default).depends_on = [(0 : Int)]
      from rfl] at hmem
    have h0 : (u : Int) = 0 := List.mem_singleton.mp hmem
    omega
  · rw [show (gchain.getD 2 default).depends_on = [(1 : Int)]
      from rfl] at hmem
    have h1 : (u : Int) = 1 := List.mem_singleton.mp hmem
    omega

theorem gchain_acyclic : ¬ HasCycle gchain := by
  rintro ⟨u, c, hc0, f, hf0, hfc, hedge⟩
  have key : ∀ i, i ≤ c → f 0 + i ≤ f i := by
    intro i
    induction i with
    | zero => intro _; omega
    | succ m ihm =>
      intro hm
      have h1 := ihm (by omega)
      have h2 := gchain_edge_incr (f m) (f (m + 1)) (hedge m (by omega))
      omega
  have hkey := key c le_rfl
  rw [hf0, hfc] at hkey
  omega

/-- C1 witness: the 3-cycle raises `Cycle detected` with exactly the ids
`{0, 1, 2}`. -/
theorem claim_C1_witness :
    ValidGraph g3 ∧ HasCycle g3 ∧
    assign_level_to_nodes_inplace g3 = .error [2, 0, 1] ∧
    ([2, 0, 1] : List Int).toFinset = ({0, 1, 2} : Finset Int) ∧
    (∃ l, assign_level_to_nodes_inplace g3 = .error l ∧
      ∀ x : Int, x ∈ l ↔ ∃ v : Nat, x = (v : Int) ∧ CycleDownstream g3 v) :=
  ⟨by decide, g3_hasCycle, by rfl, by decide,
    claim_C1_cycle_error_set g3 (by decide) g3_hasCycle⟩

/-- C2 witness: the linear chain terminates with levels `[0, 1, 2]`. -/
theorem claim_C2_witness :
    ValidGraph gchain ∧ ¬ HasCycle gchain ∧
    assign_level_to_nodes_inplace gchain =
      .ok [⟨0, [], [], 0⟩, ⟨1, [], [0], 1⟩, ⟨2, [], [1], 2⟩] ∧
    (∃ g', assign_level_to_nodes_inplace gchain = .ok g' ∧
      ∀ i, i < gchain.length → (gchain.getD i default).depends_on = [] →
        ((g'.getD i default)).level = 0) :=
  ⟨by decide, gchain_acyclic, by rfl,
    claim_C2_acyclic_terminates gchain (by decide) gchain_acyclic⟩

/-- C3 witness: a concrete overwrite and the longest-path property on the
chain. -/
theorem claim_C3_witness :
    ((1 : Int) ∈ ([1, 2] : List Int) ∧ (1 : Int).toNat < gchain.length ∧
      ((write_children 5 [1, 2] gchain).getD (1 : Int).toNat
        default).level = 5 + 1) ∧
    (ValidGraph gchain ∧ ¬ HasCycle gchain ∧
      ∃ g', assign_level_to_nodes_inplace gchain = .ok g' ∧
        ∀ v, v < gchain.length →
          IsLongestWalkLevel gchain v ((g'.getD v default).level)) :=
  ⟨⟨by decide, by decide,
      claim_C3_overwrite_yet_longest_path.1 5 [1, 2] gchain 1 (by decide)
        (by decide)⟩,
    by decide, gchain_acyclic,
    claim_C3_overwrite_yet_longest_path.2 gchain (by decide) gchain_acyclic⟩

end Graphgen
